import Mathlib

/-! # To-do list manager (script.js): data model, operations and their properties

The development embeds the task store of script.js: the classes Task and
Subtask, the methods of TodoListManager that read or change the task
collection, the localStorage slot and the import file.

Modelling conventions.

* A task field holds a primitive JavaScript value (JsValue): undefined, null, a
  boolean, a number or a string.  Numbers are integers (ids are Date.now()
  readings).  Fields of an imported file that hold arrays or objects are outside
  the model, except the subtasks field.
* A JSON text (the import file, the localStorage slot) is represented by what
  JSON.parse makes of it (JsonText).
* Library functions that the script calls and whose tables are not part of the
  repository (String.prototype.toLowerCase, Date.parse, Date.prototype.toISOString)
  are the fields of a Runtime record that every operation receives.
* An operation that reads the clock receives the reading as an argument.
* A thrown exception is an Except.error result.
* DOM rendering (renderTasks, updateStats, alerts) does not change the task
  collection and is left out.
-/

namespace TodoList

/-! ## JavaScript values -/

/-- Primitive JavaScript values that a task field can hold. -/
inductive JsValue where
  | undefined
  | null
  | bool (b : Bool)
  | number (n : Int)
  | string (s : String)
deriving DecidableEq, Repr

/-- Exceptions that the modelled code can throw. -/
inductive JsError where
  | typeError
  | syntaxError
  | invalidFileFormat
deriving DecidableEq, Repr

/-- A Date object: its time value in milliseconds, or none for Invalid Date. -/
abbrev JsDate := Option Int

/-- Library functions used by the script. -/
structure Runtime where
  /-- String.prototype.toLowerCase -/
  toLowerCase : String → String
  /-- Date.parse: the time value of a date string, none for NaN -/
  dateParse : String → Option Int
  /-- Date.prototype.toISOString on a valid time value -/
  toISOString : Int → String

/-- ToBoolean: the truthiness of a value. -/
def JsValue.truthy : JsValue → Bool
  | .undefined => false
  | .null => false
  | .bool b => b
  | .number n => n != 0
  | .string s => s != ""

/-- The operator === on primitive values. -/
def strictEq (a b : JsValue) : Bool := decide (a = b)

/-- The expression (v || null). -/
def orNull (v : JsValue) : JsValue := if v.truthy then v else .null

/-- A default parameter value: used when the argument is undefined. -/
def orDefault (v d : JsValue) : JsValue :=
  match v with
  | .undefined => d
  | _ => v

/-- The largest time value of a Date, 8.64e15 ms. -/
def maxTimeValue : Int := 8640000000000000

/-- TimeClip of an integral time value. -/
def timeClip (n : Int) : JsDate := if n.natAbs ≤ maxTimeValue.natAbs then some n else none

/-- The constructor call new Date(v) on a primitive value. -/
def newDate (js : Runtime) : JsValue → JsDate
  | .undefined => none
  | .null => some 0
  | .bool b => some (if b then 1 else 0)
  | .number n => timeClip n
  | .string s => js.dateParse s

/-- Date.prototype.toJSON: the ISO string of a valid date, null for Invalid Date. -/
def dateToJSON (js : Runtime) : JsDate → JsValue
  | some ms => .string (js.toISOString ms)
  | none => .null

/-! ## Strings -/

/-- WhiteSpace and LineTerminator code points of ECMAScript, removed by trim. -/
def isJsWhiteSpace (c : Char) : Bool :=
  let n := c.toNat
  n == 0x09 || n == 0x0A || n == 0x0B || n == 0x0C || n == 0x0D || n == 0x20 ||
  n == 0xA0 || n == 0x1680 || (0x2000 ≤ n && n ≤ 0x200A) || n == 0x2028 ||
  n == 0x2029 || n == 0x202F || n == 0x205F || n == 0x3000 || n == 0xFEFF

/-- String.prototype.trim -/
def trim (s : String) : String :=
  ⟨((s.data.dropWhile isJsWhiteSpace).reverse.dropWhile isJsWhiteSpace).reverse⟩

/-- Whether the character list needle occurs in hay as a contiguous block. -/
def occursIn (needle : List Char) : List Char → Bool
  | [] => needle.isEmpty
  | c :: cs => needle.isPrefixOf (c :: cs) || occursIn needle cs

/-- String.prototype.includes -/
def includes (hay needle : String) : Bool := occursIn needle.data hay.data

/-! ## Data model -/

/-- The class Subtask. -/
structure Subtask where
  id : JsValue
  text : JsValue
  completed : JsValue
deriving DecidableEq, Repr

/-- The class Task. -/
structure Task where
  id : JsValue
  text : JsValue
  completed : JsValue
  priority : JsValue
  category : JsValue
  dueDate : JsValue
  description : JsValue
  subtasks : List Subtask
  createdAt : JsDate
  updatedAt : JsDate
deriving DecidableEq, Repr

/-- The constructor of Subtask: completed defaults to false. -/
def Subtask.new (id text completed : JsValue) : Subtask :=
  { id := id, text := text, completed := orDefault completed (.bool false) }

/-- The constructor of Task with its default parameter values; subtasks is none when
the argument is omitted, created and updated are the two clock readings. -/
def Task.new (id text completed priority category dueDate description : JsValue)
    (subtasks : Option (List Subtask)) (created updated : JsDate) : Task :=
  { id := id
    text := text
    completed := orDefault completed (.bool false)
    priority := orDefault priority (.string "medium")
    category := orDefault category (.string "personal")
    dueDate := orDefault dueDate .null
    description := orDefault description (.string "")
    subtasks := subtasks.getD []
    createdAt := created
    updatedAt := updated }

/-! ## JSON texts -/

/-- An element of a subtasks array of a parsed JSON text: null, or a value whose
properties id, text and completed read as given (undefined when absent). -/
inductive JsonSubtask where
  | null
  | object (id text completed : JsValue)
deriving DecidableEq, Repr

/-- The subtasks property of an element of a parsed JSON text: a primitive value
(undefined when absent), an object that is not an array, or an array. -/
inductive JsonSubtasks where
  | value (v : JsValue)
  | object
  | array (elems : List JsonSubtask)
deriving DecidableEq, Repr

/-- The properties that the script reads from a non-null element of a parsed
array; a property that is absent reads as undefined. -/
structure JsonObject where
  id : JsValue
  text : JsValue
  completed : JsValue
  priority : JsValue
  category : JsValue
  dueDate : JsValue
  description : JsValue
  subtasks : JsonSubtasks
  createdAt : JsValue
  updatedAt : JsValue
deriving DecidableEq, Repr

/-- An element of a parsed array: null, or a value with properties. -/
inductive JsonElem where
  | null
  | value (o : JsonObject)
deriving DecidableEq, Repr

/-- A JSON text, given by the outcome of JSON.parse on it: the empty string, a
text that does not parse, a text that parses to something other than an array, or
a text that parses to an array. -/
inductive JsonText where
  | empty
  | malformed
  | nonArray
  | array (elems : List JsonElem)
deriving DecidableEq, Repr

/-- Array.prototype.map with a callback that can throw: the first exception ends
the traversal. -/
def mapExcept {α β : Type} (f : α → Except JsError β) : List α → Except JsError (List β)
  | [] => .ok []
  | a :: as =>
    match f a with
    | .error e => .error e
    | .ok b =>
      match mapExcept f as with
      | .error e => .error e
      | .ok bs => .ok (b :: bs)

/-- The callback sub => new Subtask(sub.id, sub.text, sub.completed). -/
def subtaskOfJson : JsonSubtask → Except JsError Subtask
  | .null => .error .typeError
  | .object id text completed => .ok (Subtask.new id text completed)

/-- The expression task.subtasks ? task.subtasks.map(...) : []. -/
def subtasksOfJson : JsonSubtasks → Except JsError (List Subtask)
  | .value v => if v.truthy then .error .typeError else .ok []
  | .object => .error .typeError
  | .array elems => mapExcept subtaskOfJson elems

/-- The callback that loadTasksFromLocalStorage and importTasks map over the parsed
array: a Task instance built from the element, with the two dates restored from the
element (the clock readings of the constructor are overwritten). -/
def taskOfJson (js : Runtime) : JsonElem → Except JsError Task
  | .null => .error .typeError
  | .value o =>
    match subtasksOfJson o.subtasks with
    | .error e => .error e
    | .ok subs =>
      let taskInstance := Task.new o.id o.text o.completed o.priority o.category o.dueDate
        o.description (some subs) none none
      .ok { taskInstance with
            createdAt := newDate js o.createdAt
            updatedAt := newDate js o.updatedAt }

/-- What JSON.stringify writes for a subtask. -/
def subtaskToJson (sub : Subtask) : JsonSubtask := .object sub.id sub.text sub.completed

/-- What JSON.stringify writes for a task: a property holding undefined is left
out, a date is written through toJSON. -/
def taskToJson (js : Runtime) (t : Task) : JsonElem :=
  .value { id := t.id
           text := t.text
           completed := t.completed
           priority := t.priority
           category := t.category
           dueDate := t.dueDate
           description := t.description
           subtasks := .array (t.subtasks.map subtaskToJson)
           createdAt := dateToJSON js t.createdAt
           updatedAt := dateToJSON js t.updatedAt }

/-- JSON.stringify(this.tasks) -/
def stringify (js : Runtime) (tasks : List Task) : JsonText :=
  .array (tasks.map (taskToJson js))

/-! ## The manager -/

/-- State of TodoListManager together with the localStorage slot named tasks
(none when the slot is absent). -/
structure TodoListManager where
  tasks : List Task
  currentFilter : String
  searchTerm : String
  storage : Option JsonText
deriving DecidableEq, Repr

/-- State set up by the constructor before init runs, with an absent storage slot. -/
def TodoListManager.empty : TodoListManager :=
  { tasks := [], currentFilter := "all", searchTerm := "", storage := none }

/-- Method saveTasksToLocalStorage. -/
def saveTasksToLocalStorage (js : Runtime) (s : TodoListManager) : TodoListManager :=
  { s with storage := some (stringify js s.tasks) }

/-- Method loadTasksFromLocalStorage: an absent or empty slot leaves the tasks as
they are; otherwise the slot is parsed and mapped. -/
def loadTasksFromLocalStorage (js : Runtime) (s : TodoListManager) :
    Except JsError TodoListManager :=
  match s.storage with
  | none => .ok s
  | some .empty => .ok s
  | some .malformed => .error .syntaxError
  | some .nonArray => .error .typeError
  | some (.array elems) =>
    match mapExcept (taskOfJson js) elems with
    | .error e => .error e
    | .ok ts => .ok { s with tasks := ts }

/-- In-place change of the object returned by Array.prototype.find: the first
element that satisfies p is replaced by its image under f. -/
def updateFirst {α : Type} (p : α → Bool) (f : α → α) : List α → List α
  | [] => []
  | t :: ts => if p t then f t :: ts else t :: updateFirst p f ts

/-- Method addTask: text, priority, category and date are the values of the four
input elements, now is the reading of Date.now(), created and updated are the
readings of the two new Date() calls of the constructor. -/
def addTask (js : Runtime) (s : TodoListManager) (inputValue priority category date : String)
    (now created updated : Int) : TodoListManager :=
  let text := trim inputValue
  if text ≠ "" then
    let newTask := Task.new (.number now) (.string text) (.bool false) (.string priority)
      (.string category) (orNull (.string date)) (.string "") none (some created) (some updated)
    saveTasksToLocalStorage js { s with tasks := s.tasks ++ [newTask] }
  else s

/-- Method editTask; now is the reading of new Date(). -/
def editTask (js : Runtime) (s : TodoListManager) (id : JsValue) (newText : String)
    (newPriority newCategory newDueDate newDescription : JsValue) (now : Int) :
    TodoListManager :=
  match s.tasks.find? (fun task => strictEq task.id id) with
  | some _ =>
    if trim newText ≠ "" then
      let assign : Task → Task := fun task =>
        { task with
          text := .string (trim newText)
          priority := newPriority
          category := newCategory
          dueDate := orNull newDueDate
          description := newDescription
          updatedAt := some now }
      saveTasksToLocalStorage js
        { s with tasks := updateFirst (fun task => strictEq task.id id) assign s.tasks }
    else s
  | none => s

/-- Method handleEditTask: answer is what the prompt returns, none when it is
cancelled; the other fields are passed on as the page shows them. -/
def handleEditTask (js : Runtime) (s : TodoListManager) (id : JsValue)
    (currentPriority currentCategory currentDueDate currentDescription : JsValue)
    (answer : Option String) (now : Int) : TodoListManager :=
  match answer with
  | some newText =>
    editTask js s id newText currentPriority currentCategory currentDueDate currentDescription
      now
  | none => s

/-- The timer callback of deleteTask: the removal of the tasks with the id. -/
def deleteTaskRemoval (js : Runtime) (s : TodoListManager) (id : JsValue) : TodoListManager :=
  saveTasksToLocalStorage js
    { s with tasks := s.tasks.filter (fun task => !strictEq task.id id) }

/-- Method deleteTask: when the list element of the task is on the page
(elementFound) the removal runs once the animation delay has passed. -/
def deleteTask (js : Runtime) (s : TodoListManager) (elementFound : Bool) (id : JsValue) :
    TodoListManager :=
  if elementFound then deleteTaskRemoval js s id else s

/-- Method toggleTaskCompletion. -/
def toggleTaskCompletion (js : Runtime) (s : TodoListManager) (id : JsValue) (now : Int) :
    TodoListManager :=
  match s.tasks.find? (fun task => strictEq task.id id) with
  | some _ =>
    let assign : Task → Task := fun task =>
      { task with completed := .bool (!task.completed.truthy), updatedAt := some now }
    saveTasksToLocalStorage js
      { s with tasks := updateFirst (fun task => strictEq task.id id) assign s.tasks }
  | none => s

/-- Method addSubtask: now is the reading of Date.now(), updated the reading of
new Date(). -/
def addSubtask (js : Runtime) (s : TodoListManager) (taskId : JsValue) (subtaskText : String)
    (now updated : Int) : TodoListManager :=
  match s.tasks.find? (fun task => strictEq task.id taskId) with
  | some _ =>
    if trim subtaskText ≠ "" then
      let newSubtask := Subtask.new (.number now) (.string (trim subtaskText)) .undefined
      let assign : Task → Task := fun task =>
        { task with subtasks := task.subtasks ++ [newSubtask], updatedAt := some updated }
      saveTasksToLocalStorage js
        { s with tasks := updateFirst (fun task => strictEq task.id taskId) assign s.tasks }
    else s
  | none => s

/-- Method toggleSubtaskCompletion; now is the reading of new Date(). -/
def toggleSubtaskCompletion (js : Runtime) (s : TodoListManager) (taskId subtaskId : JsValue)
    (now : Int) : TodoListManager :=
  match s.tasks.find? (fun task => strictEq task.id taskId) with
  | some task =>
    match task.subtasks.find? (fun sub => strictEq sub.id subtaskId) with
    | some _ =>
      let negate : Subtask → Subtask := fun sub =>
        { sub with completed := .bool (!sub.completed.truthy) }
      let assign : Task → Task := fun task =>
        { task with
          subtasks := updateFirst (fun sub => strictEq sub.id subtaskId) negate task.subtasks
          updatedAt := some now }
      saveTasksToLocalStorage js
        { s with tasks := updateFirst (fun task => strictEq task.id taskId) assign s.tasks }
    | none => s
  | none => s

/-- Method deleteSubtask; now is the reading of new Date(). -/
def deleteSubtask (js : Runtime) (s : TodoListManager) (taskId subtaskId : JsValue)
    (now : Int) : TodoListManager :=
  match s.tasks.find? (fun task => strictEq task.id taskId) with
  | some _ =>
    let assign : Task → Task := fun task =>
      { task with
        subtasks := task.subtasks.filter (fun sub => !strictEq sub.id subtaskId)
        updatedAt := some now }
    saveTasksToLocalStorage js
      { s with tasks := updateFirst (fun task => strictEq task.id taskId) assign s.tasks }
  | none => s

/-- Method setFilter. -/
def setFilter (s : TodoListManager) (filter : String) : TodoListManager :=
  { s with currentFilter := filter }

/-- The input listener of the search box: the stored term is the lower-cased value
of the box. -/
def searchInput (js : Runtime) (s : TodoListManager) (value : String) : TodoListManager :=
  { s with searchTerm := js.toLowerCase value }

/-- Method clearAllTasks; confirmed is the answer to the confirmation dialog, which
is only asked when there are tasks. -/
def clearAllTasks (js : Runtime) (s : TodoListManager) (confirmed : Bool) : TodoListManager :=
  if s.tasks.length > 0 && confirmed then
    saveTasksToLocalStorage js { s with tasks := [] }
  else s

/-- The part of the try block of importTasks that comes before the assignment to
this.tasks: JSON.parse, the Array.isArray test and the conversion of the elements. -/
def importedTasks (js : Runtime) : JsonText → Except JsError (List Task)
  | .empty => .error .syntaxError
  | .malformed => .error .syntaxError
  | .nonArray => .error .invalidFileFormat
  | .array elems => mapExcept (taskOfJson js) elems

/-- Method importTasks, with the onload handler of the reader run on the text of
the file; file is none when no file was chosen.  An exception is caught and
reported, so the method itself always returns. -/
def importTasks (js : Runtime) (s : TodoListManager) (file : Option JsonText) :
    TodoListManager :=
  match file with
  | none => s
  | some text =>
    match importedTasks js text with
    | .ok ts => saveTasksToLocalStorage js { s with tasks := ts }
    | .error _ => s

/-! ## Queries -/

/-- The expression field.toLowerCase().includes(term): a TypeError when the field
is not a string. -/
def lowerIncludes (js : Runtime) (field : JsValue) (term : String) : Except JsError Bool :=
  match field with
  | .string str => .ok (includes (js.toLowerCase str) term)
  | _ => .error .typeError

/-- The callback of the filter call in searchTasks: text, description and category
are tried in this order and the first hit decides. -/
def matchesSearch (js : Runtime) (term : String) (task : Task) : Except JsError Bool :=
  match lowerIncludes js task.text term with
  | .error e => .error e
  | .ok true => .ok true
  | .ok false =>
    match lowerIncludes js task.description term with
    | .error e => .error e
    | .ok true => .ok true
    | .ok false => lowerIncludes js task.category term

/-- Array.prototype.filter with a callback that can throw. -/
def filterExcept {α : Type} (p : α → Except JsError Bool) : List α → Except JsError (List α)
  | [] => .ok []
  | a :: as =>
    match p a with
    | .error e => .error e
    | .ok keep =>
      match filterExcept p as with
      | .error e => .error e
      | .ok rest => .ok (if keep then a :: rest else rest)

/-- Method searchTasks. -/
def searchTasks (js : Runtime) (s : TodoListManager) (tasks : List Task) :
    Except JsError (List Task) :=
  if s.searchTerm = "" then .ok tasks
  else filterExcept (matchesSearch js s.searchTerm) tasks

/-- Method getFilteredTasks. -/
def getFilteredTasks (js : Runtime) (s : TodoListManager) : Except JsError (List Task) :=
  let filteredTasks :=
    if s.currentFilter = "completed" then s.tasks.filter (fun task => task.completed.truthy)
    else if s.currentFilter = "pending" then s.tasks.filter (fun task => !task.completed.truthy)
    else s.tasks
  searchTasks js s filteredTasks

/-! ## Number arithmetic of calculateCompletionPercentage

The quotient and the product are double-precision operations: each returns the
double nearest to the exact result, ties going to the even significand.  The
values that occur lie between 2^(-32) and 100, far from the ends of the exponent
range, so the exponent is not bounded here. -/

/-- A finite double that is not negative: the value mant * 2 ^ exp. -/
structure Float64 where
  mant : Nat
  exp : Int
deriving DecidableEq, Repr

/-- Numerator of the value of a double written as a fraction. -/
def Float64.num (x : Float64) : Nat := if 0 ≤ x.exp then x.mant * 2 ^ x.exp.toNat else x.mant

/-- Denominator of the value of a double written as a fraction. -/
def Float64.den (x : Float64) : Nat := if 0 ≤ x.exp then 1 else 2 ^ (-x.exp).toNat

/-- The value of a double as a rational number. -/
def Float64.toRat (x : Float64) : ℚ := (x.num : ℚ) / (x.den : ℚ)

/-- The integer nearest to num / den, the even one of two that are equally near. -/
def roundTiesEven (num den : Nat) : Nat :=
  let q := num / den
  let r := num % den
  if 2 * r < den then q
  else if den < 2 * r then q + 1
  else if q % 2 = 0 then q else q + 1

/-- Number of halvings that take n below 2, at most fuel of them. -/
def log2Fuel : Nat → Nat → Nat
  | 0, _ => 0
  | fuel + 1, n => if n < 2 then 0 else log2Fuel fuel (n / 2) + 1

/-- The floor of the binary logarithm of n, for n at least 1. -/
def floorLog2 (n : Nat) : Nat := log2Fuel n n

/-- The fraction num / den divided by 2 ^ e, as a numerator and a denominator. -/
def scaleDown (num den : Nat) (e : Int) : Nat × Nat :=
  if 0 ≤ e then (num, den * 2 ^ e.toNat) else (num * 2 ^ (-e).toNat, den)

/-- The floor of the binary logarithm of num / den, for num and den at least 1. -/
def floorLog2Frac (num den : Nat) : Int :=
  let k : Int := (floorLog2 num : Int) - (floorLog2 den : Int)
  let scaled := scaleDown num den k
  if scaled.2 ≤ scaled.1 then k else k - 1

/-- The double nearest to the fraction num / den (round to nearest, ties to even,
53 significant bits). -/
def roundToDouble (num den : Nat) : Float64 :=
  if num = 0 then { mant := 0, exp := 0 }
  else
    let e := floorLog2Frac num den - 52
    let scaled := scaleDown num den e
    { mant := roundTiesEven scaled.1 scaled.2, exp := e }

/-- The quotient a / b of two integers that are doubles, b not zero. -/
def divDouble (a b : Nat) : Float64 := roundToDouble a b

/-- The product x * k of a double and an integer that is a double. -/
def mulDouble (x : Float64) (k : Nat) : Float64 := roundToDouble (x.num * k) x.den

/-- Math.round on a double that is not negative: the nearest integer, the larger
one of two that are equally near. -/
def mathRound (x : Float64) : Nat := (2 * x.num + x.den) / (2 * x.den)

/-- Method calculateCompletionPercentage. -/
def calculateCompletionPercentage (task : Task) : Nat :=
  if task.subtasks.length = 0 then
    if task.completed.truthy then 100 else 0
  else
    let completedSubtasks := (task.subtasks.filter (fun sub => sub.completed.truthy)).length
    mathRound (mulDouble (divDouble completedSubtasks task.subtasks.length) 100)

/-! ## Operations as a step function -/

/-- A call of one of the methods that the page can trigger, with its arguments and
the clock readings it makes. -/
inductive Op where
  | addTask (inputValue priority category date : String) (now created updated : Int)
  | editTask (id : JsValue) (newText : String)
      (newPriority newCategory newDueDate newDescription : JsValue) (now : Int)
  | deleteTask (elementFound : Bool) (id : JsValue)
  | toggleTaskCompletion (id : JsValue) (now : Int)
  | addSubtask (taskId : JsValue) (subtaskText : String) (now updated : Int)
  | toggleSubtaskCompletion (taskId subtaskId : JsValue) (now : Int)
  | deleteSubtask (taskId subtaskId : JsValue) (now : Int)
  | clearAllTasks (confirmed : Bool)
  | importTasks (file : Option JsonText)
  | setFilter (filter : String)
  | searchInput (value : String)
deriving DecidableEq, Repr

/-- Effect of one call on the state. -/
def step (js : Runtime) (s : TodoListManager) : Op → TodoListManager
  | .addTask inputValue priority category date now created updated =>
    addTask js s inputValue priority category date now created updated
  | .editTask id newText newPriority newCategory newDueDate newDescription now =>
    editTask js s id newText newPriority newCategory newDueDate newDescription now
  | .deleteTask elementFound id => deleteTask js s elementFound id
  | .toggleTaskCompletion id now => toggleTaskCompletion js s id now
  | .addSubtask taskId subtaskText now updated => addSubtask js s taskId subtaskText now updated
  | .toggleSubtaskCompletion taskId subtaskId now =>
    toggleSubtaskCompletion js s taskId subtaskId now
  | .deleteSubtask taskId subtaskId now => deleteSubtask js s taskId subtaskId now
  | .clearAllTasks confirmed => clearAllTasks js s confirmed
  | .importTasks file => importTasks js s file
  | .setFilter filter => setFilter s filter
  | .searchInput value => searchInput js s value

/-- State after a sequence of calls. -/
def run (js : Runtime) (s : TodoListManager) (ops : List Op) : TodoListManager :=
  ops.foldl (step js) s

/-- Ids of the tasks of a collection, in order. -/
def taskIds (tasks : List Task) : List JsValue := tasks.map (fun task => task.id)

/-- Condition on one call for the ids to stay distinct: an addTask that adds a task
reads a clock value that is not the id of a task of the collection, and an import
that succeeds brings pairwise distinct ids. -/
def Op.keepsIdsDistinct (js : Runtime) (s : TodoListManager) : Op → Prop
  | .addTask inputValue _ _ _ now _ _ =>
    trim inputValue = "" ∨ JsValue.number now ∉ taskIds s.tasks
  | .importTasks (some text) =>
    match importedTasks js text with
    | .ok ts => (taskIds ts).Nodup
    | .error _ => True
  | _ => True

instance (js : Runtime) (s : TodoListManager) : (op : Op) → Decidable (op.keepsIdsDistinct js s)
  | .addTask inputValue _ _ _ now _ _ =>
    inferInstanceAs (Decidable (trim inputValue = "" ∨ JsValue.number now ∉ taskIds s.tasks))
  | .importTasks (some text) =>
    match h : importedTasks js text with
    | .ok ts =>
      if hd : (taskIds ts).Nodup then isTrue (by simp only [Op.keepsIdsDistinct, h]; exact hd)
      else isFalse (by simp only [Op.keepsIdsDistinct, h]; exact hd)
    | .error _ => isTrue (by simp only [Op.keepsIdsDistinct, h])
  | .importTasks none => isTrue trivial
  | .editTask _ _ _ _ _ _ _ => isTrue trivial
  | .deleteTask _ _ => isTrue trivial
  | .toggleTaskCompletion _ _ => isTrue trivial
  | .addSubtask _ _ _ _ => isTrue trivial
  | .toggleSubtaskCompletion _ _ _ => isTrue trivial
  | .deleteSubtask _ _ _ => isTrue trivial
  | .clearAllTasks _ => isTrue trivial
  | .setFilter _ => isTrue trivial
  | .searchInput _ => isTrue trivial

/-- The condition keepsIdsDistinct at every call of a sequence, each taken in the
state that the earlier calls have produced. -/
def KeepsIdsDistinct (js : Runtime) : TodoListManager → List Op → Prop
  | _, [] => True
  | s, op :: ops => op.keepsIdsDistinct js s ∧ KeepsIdsDistinct js (step js s op) ops

/-- The condition KeepsIdsDistinct can be computed. -/
def decKeepsIdsDistinct (js : Runtime) : (s : TodoListManager) → (ops : List Op) →
    Decidable (KeepsIdsDistinct js s ops)
  | _, [] => isTrue trivial
  | s, op :: ops =>
    @instDecidableAnd (op.keepsIdsDistinct js s) (KeepsIdsDistinct js (step js s op) ops)
      inferInstance (decKeepsIdsDistinct js (step js s op) ops)

instance (js : Runtime) (s : TodoListManager) (ops : List Op) :
    Decidable (KeepsIdsDistinct js s ops) :=
  decKeepsIdsDistinct js s ops

/-- Condition on one call: editTask receives values for priority, category and
description, as it does from handleEditTask, which passes the values of the task. -/
def Op.passesFieldValues : Op → Prop
  | .editTask _ _ newPriority newCategory _ newDescription _ =>
    newPriority ≠ .undefined ∧ newCategory ≠ .undefined ∧ newDescription ≠ .undefined
  | _ => True

instance : (op : Op) → Decidable op.passesFieldValues
  | .editTask _ _ newPriority newCategory _ newDescription _ =>
    inferInstanceAs (Decidable
      (newPriority ≠ .undefined ∧ newCategory ≠ .undefined ∧ newDescription ≠ .undefined))
  | .addTask _ _ _ _ _ _ _ => isTrue trivial
  | .importTasks _ => isTrue trivial
  | .deleteTask _ _ => isTrue trivial
  | .toggleTaskCompletion _ _ => isTrue trivial
  | .addSubtask _ _ _ _ => isTrue trivial
  | .toggleSubtaskCompletion _ _ _ => isTrue trivial
  | .deleteSubtask _ _ _ => isTrue trivial
  | .clearAllTasks _ => isTrue trivial
  | .setFilter _ => isTrue trivial
  | .searchInput _ => isTrue trivial

/-- What the constructors establish for a task: no field that has a default value
holds undefined, also in the subtasks. -/
def Task.defaultsApplied (task : Task) : Prop :=
  task.completed ≠ .undefined ∧ task.priority ≠ .undefined ∧ task.category ≠ .undefined ∧
  task.dueDate ≠ .undefined ∧ task.description ≠ .undefined ∧
  ∀ sub ∈ task.subtasks, sub.completed ≠ .undefined

instance (task : Task) : Decidable task.defaultsApplied := by
  unfold Task.defaultsApplied
  infer_instance

/-- Two tasks agree in every field but the two dates. -/
def sameData (a b : Task) : Prop :=
  a.id = b.id ∧ a.text = b.text ∧ a.completed = b.completed ∧ a.priority = b.priority ∧
  a.category = b.category ∧ a.dueDate = b.dueDate ∧ a.description = b.description ∧
  a.subtasks = b.subtasks

instance (a b : Task) : Decidable (sameData a b) := by
  unfold sameData
  infer_instance

/-! ## Specification-side definitions and sample data -/

/-- The value that the specification gives for c completed subtasks out of n: the
integer nearest to 100 * c / n, halves going up. -/
def roundHalfUpPercent (c n : Nat) : Nat := (2 * (100 * c) + n) / (2 * n)

/-- A task with n subtasks of which the first c are completed. -/
def taskWithSubtasks (completed : Bool) (c n : Nat) : Task :=
  Task.new (.number 1) (.string "task") (.bool completed) .undefined .undefined .undefined
    .undefined
    (some ((List.range n).map (fun i =>
      Subtask.new (.number (Int.ofNat i)) (.string "step") (.bool (decide (i < c))))))
    (some 0) (some 0)

/-- Whether a value is a string. -/
def JsValue.isString : JsValue → Bool
  | .string _ => true
  | _ => false

/-- Case-insensitive containment as the specification words it: the lower-cased
term is a contiguous part of the lower-cased field. -/
def containsIgnoreCase (js : Runtime) (term : String) (field : JsValue) : Bool :=
  match field with
  | .string str => decide ((js.toLowerCase term).data <:+: (js.toLowerCase str).data)
  | _ => false

/-- The specification of a hit: the term is contained, ignoring case, in the text or
the description or the category. -/
def matchesIgnoreCase (js : Runtime) (term : String) (task : Task) : Bool :=
  containsIgnoreCase js term task.text || containsIgnoreCase js term task.description ||
    containsIgnoreCase js term task.category

/-- A runtime for evaluating examples: lower-casing of the letters A to Z, no date
string parses, every date prints as the empty string. -/
def sampleRuntime : Runtime :=
  { toLowerCase := fun str => ⟨str.data.map Char.toLower⟩
    dateParse := fun _ => none
    toISOString := fun _ => "" }

/-- A task as addTask builds it. -/
def sampleTask (id : Int) (text : String) : Task :=
  Task.new (.number id) (.string text) (.bool false) (.string "medium") (.string "personal")
    .null (.string "") none (some id) (some id)

/-- An element of a parsed array that has the given id and text and no other
property. -/
def sampleJsonObject (id : Int) (text : String) : JsonObject :=
  { id := .number id
    text := .string text
    completed := .undefined
    priority := .undefined
    category := .undefined
    dueDate := .undefined
    description := .undefined
    subtasks := .value .undefined
    createdAt := .undefined
    updatedAt := .undefined }

/-- A sequence of calls: a task is added, given a subtask, the subtask is completed,
and the task is edited. -/
def sampleOps : List Op :=
  [.addTask " Buy milk " "medium" "personal" "" 5 5 5,
   .addSubtask (.number 5) "2% milk" 6 6,
   .toggleSubtaskCompletion (.number 5) (.number 6) 7,
   .editTask (.number 5) "Buy oat milk" (.string "high") (.string "personal") .null
     (.string "") 8]

/-! ## Filtered views -/

/-- C1: with an empty search term the views of getFilteredTasks for the filters
completed and pending partition the task list: both are sublists of the list (same
relative order, nothing foreign), together they hold every occurrence of every task
exactly once, no task is in both, and every task of the list is in one of them; for
the filter all the view is the list itself. -/
theorem getFilteredTasks_partition (js : Runtime) (s : TodoListManager) :
    ∃ completed pending : List Task,
      getFilteredTasks js { s with currentFilter := "completed", searchTerm := "" }
        = .ok completed ∧
      getFilteredTasks js { s with currentFilter := "pending", searchTerm := "" }
        = .ok pending ∧
      getFilteredTasks js { s with currentFilter := "all", searchTerm := "" } = .ok s.tasks ∧
      completed.Sublist s.tasks ∧ pending.Sublist s.tasks ∧
      (completed ++ pending).Perm s.tasks ∧
      (∀ t, completed.count t + pending.count t = s.tasks.count t) ∧
      (∀ t, ¬ (t ∈ completed ∧ t ∈ pending)) ∧
      (∀ t, t ∈ s.tasks ↔ (t ∈ completed ∨ t ∈ pending)) := by
  refine ⟨s.tasks.filter (fun task => task.completed.truthy),
    s.tasks.filter (fun task => !task.completed.truthy), ?_, ?_, ?_, ?_, ?_, ?_, ?_, ?_, ?_⟩
  · simp [getFilteredTasks, searchTasks]
  · simp [getFilteredTasks, searchTasks]
  · simp [getFilteredTasks, searchTasks]
  · exact List.filter_sublist _
  · exact List.filter_sublist _
  · exact List.filter_append_perm _ _
  · intro t
    have h := (List.filter_append_perm (fun task : Task => task.completed.truthy) s.tasks).count_eq t
    rw [List.count_append] at h
    exact h
  · intro t ⟨h1, h2⟩
    have a := (List.mem_filter.mp h1).2
    have b := (List.mem_filter.mp h2).2
    simp [a] at b
  · intro t
    simp only [List.mem_filter]
    constructor
    · intro h
      cases hc : t.completed.truthy
      · right; exact ⟨h, by simp [hc]⟩
      · left; exact ⟨h, rfl⟩
    · rintro (h | h) <;> exact h.1

/-! ## Completion percentage -/

/-- Without subtasks the percentage is 100 for a completed task and 0 otherwise. -/
theorem calculateCompletionPercentage_no_subtasks (task : Task) (h : task.subtasks = []) :
    calculateCompletionPercentage task = if task.completed.truthy then 100 else 0 := by
  simp [calculateCompletionPercentage, h]

/-- One completed subtask out of two gives 50. -/
theorem calculateCompletionPercentage_one_of_two :
    calculateCompletionPercentage (taskWithSubtasks false 1 2) = 50 := by
  decide

/-- C2: for a task with 40 subtasks of which 23 are completed the method returns
57, while 100 * 23 / 40 = 57.5 rounded to the nearest integer with halves up is 58:
the double nearest to 23 / 40 lies below it, and so does its product with 100. -/
theorem calculateCompletionPercentage_halfway_low :
    calculateCompletionPercentage (taskWithSubtasks false 23 40) = 57 ∧
    roundHalfUpPercent 23 40 = 58 ∧
    (taskWithSubtasks false 23 40).subtasks.length = 40 ∧
    ((taskWithSubtasks false 23 40).subtasks.filter (fun sub => sub.completed.truthy)).length
      = 23 := by
  decide

/-! ### Accuracy of the double-precision percentage

The quotient and the product each carry a relative error of at most 2^(-53), so
the value that Math.round receives is within 300 / 2^53 of 100 * c / n.  For up to
2^32 subtasks this is less than the distance of a fraction with denominator 2 * n
to the next integer plus a half, so the result can differ from the exact rounding
only when 100 * c / n is exactly half-way between two integers, and then by one. -/

theorem log2Fuel_spec : ∀ fuel n : Nat, n ≤ fuel → 0 < n →
    2 ^ log2Fuel fuel n ≤ n ∧ n < 2 ^ (log2Fuel fuel n + 1) := by
  intro fuel
  induction fuel with
  | zero => intro n h1 h2; omega
  | succ fuel ih =>
    intro n h1 h2
    unfold log2Fuel
    split
    · constructor <;> simp <;> omega
    · have h := ih (n / 2) (by omega) (by omega)
      obtain ⟨ha, hb⟩ := h
      rw [pow_succ] at hb ⊢
      constructor
      · omega
      · rw [pow_succ]
        omega

theorem floorLog2_spec (n : Nat) (h : 0 < n) :
    2 ^ floorLog2 n ≤ n ∧ n < 2 ^ (floorLog2 n + 1) :=
  log2Fuel_spec n n (le_refl n) h

theorem roundTiesEven_error (num den : Nat) (hden : 0 < den) :
    |(roundTiesEven num den : ℚ) - (num : ℚ) / den| ≤ 1 / 2 := by
  have hd : (0 : ℚ) < den := by exact_mod_cast hden
  have hsplit : (num : ℚ) = den * (num / den : Nat) + (num % den : Nat) := by
    exact_mod_cast (Nat.div_add_mod num den).symm
  have hr : (num % den : Nat) < den := Nat.mod_lt _ hden
  have hrq : ((num % den : Nat) : ℚ) < den := by exact_mod_cast hr
  have hr0 : (0 : ℚ) ≤ ((num % den : Nat) : ℚ) := by positivity
  have hval : (num : ℚ) / den = (num / den : Nat) + ((num % den : Nat) : ℚ) / den := by
    rw [div_eq_iff (ne_of_gt hd)]
    rw [add_mul, div_mul_cancel₀ _ (ne_of_gt hd)]
    linarith
  rw [hval]
  unfold roundTiesEven
  simp only
  have key : ∀ t : ℚ, 0 ≤ t → t ≤ 1 / 2 →
      |((num / den : Nat) : ℚ) - ((num / den : Nat) + t)| ≤ 1 / 2 := by
    intro t h0 h1
    rw [abs_le]
    constructor <;> linarith
  have key2 : ∀ t : ℚ, 1 / 2 ≤ t → t ≤ 1 →
      |(((num / den + 1 : Nat)) : ℚ) - ((num / den : Nat) + t)| ≤ 1 / 2 := by
    intro t h0 h1
    push_cast
    rw [abs_le]
    constructor <;> linarith
  have hfrac0 : (0 : ℚ) ≤ ((num % den : Nat) : ℚ) / den := by positivity
  have hfrac1 : ((num % den : Nat) : ℚ) / den ≤ 1 := by
    rw [div_le_one hd]
    exact le_of_lt hrq
  split
  · rename_i h
    apply key _ hfrac0
    rw [div_le_iff₀ hd]
    have : ((2 * (num % den) : Nat) : ℚ) < den := by exact_mod_cast h
    push_cast at this
    linarith
  · split
    · rename_i h1 h2
      apply key2 _ _ hfrac1
      rw [le_div_iff₀ hd]
      have : ((den : Nat) : ℚ) < ((2 * (num % den) : Nat) : ℚ) := by exact_mod_cast h2
      push_cast at this
      linarith
    · rename_i h1 h2
      have heq : 2 * (num % den) = den := by omega
      have heqq : (2 : ℚ) * ((num % den : Nat) : ℚ) = den := by exact_mod_cast heq
      have hhalf : ((num % den : Nat) : ℚ) / den = 1 / 2 := by
        rw [div_eq_iff (ne_of_gt hd)]
        linarith
      split
      · exact key _ hfrac0 (le_of_eq hhalf)
      · exact key2 _ (le_of_eq hhalf.symm) hfrac1

theorem scaleDown_spec (num den : Nat) (e : Int) (hden : 0 < den) :
    0 < (scaleDown num den e).2 ∧
    ((scaleDown num den e).1 : ℚ) / ((scaleDown num den e).2 : ℚ)
      = (num : ℚ) / den / (2 : ℚ) ^ e := by
  have hd : (den : ℚ) ≠ 0 := by exact_mod_cast hden.ne'
  obtain ⟨m, rfl | rfl⟩ := Int.eq_nat_or_neg e
  · simp only [scaleDown, Int.natCast_nonneg, if_true, Int.toNat_ofNat, zpow_natCast]
    refine ⟨by positivity, ?_⟩
    push_cast
    field_simp
  · by_cases hm : m = 0
    · subst hm
      simp [scaleDown, hden]
    · have hneg : ¬ (0 : Int) ≤ -(m : Int) := by omega
      simp only [scaleDown, hneg, if_false, neg_neg, Int.toNat_ofNat, zpow_neg, zpow_natCast]
      refine ⟨hden, ?_⟩
      push_cast
      field_simp

theorem Float64.toRat_eq (x : Float64) : x.toRat = (x.mant : ℚ) * (2 : ℚ) ^ x.exp := by
  obtain ⟨mant, e⟩ := x
  obtain ⟨m, rfl | rfl⟩ := Int.eq_nat_or_neg e
  · simp [Float64.toRat, Float64.num, Float64.den]
  · by_cases hm : m = 0
    · subst hm
      simp [Float64.toRat, Float64.num, Float64.den]
    · have hneg : ¬ (0 : Int) ≤ -(m : Int) := by omega
      simp [Float64.toRat, Float64.num, Float64.den, hneg, div_eq_mul_inv]

theorem Float64.den_pos (x : Float64) : 0 < x.den := by
  unfold Float64.den
  split <;> positivity

theorem floorLog2Frac_le (num den : Nat) (hnum : 0 < num) (hden : 0 < den) :
    (2 : ℚ) ^ floorLog2Frac num den ≤ (num : ℚ) / den := by
  have hd : (0 : ℚ) < den := by exact_mod_cast hden
  have hn : (0 : ℚ) < num := by exact_mod_cast hnum
  unfold floorLog2Frac
  simp only
  split
  · rename_i h
    obtain ⟨hpos, hval⟩ := scaleDown_spec num den
      ((floorLog2 num : Int) - (floorLog2 den : Int)) hden
    have h2 : (0 : ℚ) < ((scaleDown num den ((floorLog2 num : Int) - (floorLog2 den : Int))).2 : ℚ) := by
      exact_mod_cast hpos
    have h1 : (1 : ℚ) ≤ ((scaleDown num den ((floorLog2 num : Int) - (floorLog2 den : Int))).1 : ℚ)
        / ((scaleDown num den ((floorLog2 num : Int) - (floorLog2 den : Int))).2 : ℚ) := by
      rw [one_le_div h2]
      exact_mod_cast h
    rw [hval] at h1
    have hp : (0 : ℚ) < (2 : ℚ) ^ ((floorLog2 num : Int) - (floorLog2 den : Int)) := by positivity
    rwa [one_le_div hp] at h1
  · have ha := (floorLog2_spec num hnum).1
    have hb := (floorLog2_spec den hden).2
    have haq : ((2 : ℚ) ^ floorLog2 num) ≤ num := by exact_mod_cast ha
    have hbq : (den : ℚ) < (2 : ℚ) ^ (floorLog2 den + 1) := by exact_mod_cast hb
    have hexp : (2 : ℚ) ^ ((floorLog2 num : Int) - (floorLog2 den : Int) - 1)
        = (2 : ℚ) ^ floorLog2 num / (2 : ℚ) ^ (floorLog2 den + 1) := by
      rw [show (floorLog2 num : Int) - (floorLog2 den : Int) - 1
          = (floorLog2 num : Int) - ((floorLog2 den + 1 : Nat) : Int) by push_cast; ring]
      rw [zpow_sub₀ (by norm_num : (2 : ℚ) ≠ 0), zpow_natCast, zpow_natCast]
    rw [hexp]
    have hp : (0 : ℚ) < (2 : ℚ) ^ (floorLog2 den + 1) := by positivity
    rw [div_le_div_iff₀ hp hd]
    have : (2 : ℚ) ^ floorLog2 num * den ≤ num * den := by
      exact mul_le_mul_of_nonneg_right haq (le_of_lt hd)
    have : (num : ℚ) * den ≤ num * (2 : ℚ) ^ (floorLog2 den + 1) := by
      exact mul_le_mul_of_nonneg_left (le_of_lt hbq) (le_of_lt hn)
    linarith

/-- The double nearest to a positive fraction differs from it by at most the
fraction times 2^(-53). -/
theorem roundToDouble_error (num den : Nat) (hden : 0 < den) :
    |(roundToDouble num den).toRat - (num : ℚ) / den| ≤ (num : ℚ) / den / 2 ^ 53 := by
  by_cases hnum : num = 0
  · subst hnum
    simp [roundToDouble, Float64.toRat, Float64.num, Float64.den]
  have hnum0 : 0 < num := Nat.pos_of_ne_zero hnum
  obtain ⟨hpos, hval⟩ := scaleDown_spec num den (floorLog2Frac num den - 52) hden
  have herr := roundTiesEven_error (scaleDown num den (floorLog2Frac num den - 52)).1
    (scaleDown num den (floorLog2Frac num den - 52)).2 hpos
  rw [hval] at herr
  have hL := floorLog2Frac_le num den hnum0 hden
  rw [Float64.toRat_eq]
  simp only [roundToDouble, hnum, if_false]
  set e : Int := floorLog2Frac num den - 52 with he
  set m : ℚ := (roundTiesEven (scaleDown num den e).1 (scaleDown num den e).2 : ℚ) with hm
  set v : ℚ := (num : ℚ) / den with hv
  have hp : (0 : ℚ) < (2 : ℚ) ^ e := by positivity
  have h1 : |m * (2 : ℚ) ^ e - v| = |m - v / (2 : ℚ) ^ e| * (2 : ℚ) ^ e := by
    rw [← abs_of_pos hp, ← abs_mul, abs_of_pos hp]
    congr 1
    field_simp
  rw [h1]
  have h2 : |m - v / (2 : ℚ) ^ e| * (2 : ℚ) ^ e ≤ 1 / 2 * (2 : ℚ) ^ e :=
    mul_le_mul_of_nonneg_right herr (le_of_lt hp)
  have h3 : (2 : ℚ) ^ e = (2 : ℚ) ^ floorLog2Frac num den / 2 ^ 52 := by
    rw [he, zpow_sub₀ (by norm_num : (2 : ℚ) ≠ 0)]
    norm_num
  have h4 : 1 / 2 * (2 : ℚ) ^ e ≤ v / 2 ^ 53 := by
    rw [h3]
    have : (2 : ℚ) ^ floorLog2Frac num den / 2 ^ 53 ≤ v / 2 ^ 53 :=
      div_le_div_of_nonneg_right hL (by positivity)
    calc 1 / 2 * ((2 : ℚ) ^ floorLog2Frac num den / 2 ^ 52)
        = (2 : ℚ) ^ floorLog2Frac num den / 2 ^ 53 := by ring
      _ ≤ v / 2 ^ 53 := this
  exact le_trans h2 h4

theorem natDiv_cast (a b : Nat) (hb : 0 < b) :
    (a : ℚ) / b = ((a / b : Nat) : ℚ) + ((a % b : Nat) : ℚ) / b := by
  have hd : (b : ℚ) ≠ 0 := by exact_mod_cast hb.ne'
  have hsplit : (a : ℚ) = b * (a / b : Nat) + (a % b : Nat) := by
    exact_mod_cast (Nat.div_add_mod a b).symm
  rw [div_eq_iff hd, add_mul, div_mul_cancel₀ _ hd]
  linarith

/-- The error of the computed percentage before Math.round: at most 300 / 2^53. -/
theorem percentage_error (c n : Nat) (hn : 0 < n) (hc : c ≤ n) :
    |(mulDouble (divDouble c n) 100).toRat - 100 * (c : ℚ) / n| ≤ 300 / 2 ^ 53 := by
  have hnq : (0 : ℚ) < n := by exact_mod_cast hn
  have hcq : (c : ℚ) ≤ n := by exact_mod_cast hc
  have hv0 : (0 : ℚ) ≤ (c : ℚ) / n := by positivity
  have hv1 : (c : ℚ) / n ≤ 1 := by
    rw [div_le_one hnq]
    exact hcq
  have hx := roundToDouble_error c n hn
  have hxden := Float64.den_pos (roundToDouble c n)
  have hy := roundToDouble_error ((roundToDouble c n).num * 100) (roundToDouble c n).den hxden
  have hprod : (((roundToDouble c n).num * 100 : Nat) : ℚ) / ((roundToDouble c n).den : ℚ)
      = 100 * (roundToDouble c n).toRat := by
    unfold Float64.toRat
    push_cast
    ring
  rw [hprod] at hy
  unfold mulDouble divDouble
  set X : ℚ := (roundToDouble c n).toRat with hX
  set Y : ℚ := (roundToDouble ((roundToDouble c n).num * 100) (roundToDouble c n).den).toRat
    with hY
  have hx1 : |X - (c : ℚ) / n| ≤ 1 / 2 ^ 53 := by
    refine le_trans hx ?_
    exact div_le_div_of_nonneg_right hv1 (by positivity)
  have hxa := abs_le.mp hx1
  have hX0 : 0 ≤ X := by
    rw [hX]
    unfold Float64.toRat
    positivity
  have hX2 : X ≤ 2 := by
    have : (1 : ℚ) / 2 ^ 53 ≤ 1 := by norm_num
    linarith [hxa.2]
  have hy1 : |Y - 100 * X| ≤ 200 / 2 ^ 53 := by
    refine le_trans hy ?_
    have : 100 * X ≤ 200 := by linarith
    exact div_le_div_of_nonneg_right this (by positivity)
  have hya := abs_le.mp hy1
  rw [abs_le]
  have e1 : (100 : ℚ) * c / n = 100 * (c / n) := by ring
  rw [e1]
  constructor
  · have := hxa.1
    have := hya.1
    linarith
  · have := hxa.2
    have := hya.2
    linarith

theorem mathRound_bounds (x : Float64) :
    ((mathRound x : Nat) : ℚ) ≤ x.toRat + 1 / 2 ∧ x.toRat + 1 / 2 < (mathRound x : ℚ) + 1 := by
  have hden := Float64.den_pos x
  have hd : (0 : ℚ) < x.den := by exact_mod_cast hden
  have h2d : 0 < 2 * x.den := by omega
  have h2dq : (0 : ℚ) < ((2 * x.den : Nat) : ℚ) := by exact_mod_cast h2d
  have hcast := natDiv_cast (2 * x.num + x.den) (2 * x.den) h2d
  have hval : x.toRat + 1 / 2 = ((2 * x.num + x.den : Nat) : ℚ) / ((2 * x.den : Nat) : ℚ) := by
    unfold Float64.toRat
    push_cast
    field_simp
    ring
  have hr : ((2 * x.num + x.den) % (2 * x.den)) < 2 * x.den := Nat.mod_lt _ h2d
  have hrq : (((2 * x.num + x.den) % (2 * x.den) : Nat) : ℚ) < ((2 * x.den : Nat) : ℚ) := by
    exact_mod_cast hr
  have hfrac0 : (0 : ℚ) ≤ (((2 * x.num + x.den) % (2 * x.den) : Nat) : ℚ)
      / ((2 * x.den : Nat) : ℚ) := by positivity
  have hfrac1 : (((2 * x.num + x.den) % (2 * x.den) : Nat) : ℚ) / ((2 * x.den : Nat) : ℚ) < 1 := by
    rw [div_lt_one h2dq]
    exact hrq
  rw [hval, hcast]
  unfold mathRound
  constructor <;> linarith

/-- The computed percentage against the exact one, for counts c out of n with n at
most 2^32: it is the exact value or one less, and it is the exact value whenever
100 * c / n is not half-way between two integers. -/
theorem percentage_near (c n : Nat) (hn : 0 < n) (hc : c ≤ n) (hbig : n ≤ 2 ^ 32) :
    (mathRound (mulDouble (divDouble c n) 100) = roundHalfUpPercent c n ∨
      mathRound (mulDouble (divDouble c n) 100) + 1 = roundHalfUpPercent c n) ∧
    ((2 * (100 * c) + n) % (2 * n) ≠ 0 →
      mathRound (mulDouble (divDouble c n) 100) = roundHalfUpPercent c n) := by
  have hnq : (0 : ℚ) < n := by exact_mod_cast hn
  have h2n : 0 < 2 * n := by omega
  have h2nq : (0 : ℚ) < ((2 * n : Nat) : ℚ) := by exact_mod_cast h2n
  have herr := abs_le.mp (percentage_error c n hn hc)
  obtain ⟨hr1, hr2⟩ := mathRound_bounds (mulDouble (divDouble c n) 100)
  set Y : ℚ := (mulDouble (divDouble c n) 100).toRat with hY
  set r : Nat := mathRound (mulDouble (divDouble c n) 100) with hr
  have hcast := natDiv_cast (2 * (100 * c) + n) (2 * n) h2n
  have hZ : (100 : ℚ) * c / n + 1 / 2
      = ((2 * (100 * c) + n : Nat) : ℚ) / ((2 * n : Nat) : ℚ) := by
    push_cast
    field_simp
    ring
  rw [hcast] at hZ
  have hk : roundHalfUpPercent c n = (2 * (100 * c) + n) / (2 * n) := rfl
  rw [hk]
  set q : Nat := (2 * (100 * c) + n) / (2 * n) with hq
  set ρ : Nat := (2 * (100 * c) + n) % (2 * n) with hρ
  have hρlt : ρ < 2 * n := Nat.mod_lt _ h2n
  have hbigq : ((2 * n : Nat) : ℚ) ≤ 2 ^ 33 := by
    have : 2 * n ≤ 2 ^ 33 := by omega
    exact_mod_cast this
  -- the smallest step of the fraction part exceeds the error
  have hstep : (300 : ℚ) / 2 ^ 53 < 1 / ((2 * n : Nat) : ℚ) := by
    rw [div_lt_div_iff₀ (by positivity) h2nq]
    have : (300 : ℚ) * ((2 * n : Nat) : ℚ) ≤ 300 * 2 ^ 33 :=
      mul_le_mul_of_nonneg_left hbigq (by norm_num)
    have h2 : (300 : ℚ) * 2 ^ 33 < 1 * 2 ^ 53 := by norm_num
    linarith
  have hfrac_hi : ((ρ : Nat) : ℚ) / ((2 * n : Nat) : ℚ) ≤ 1 - 1 / ((2 * n : Nat) : ℚ) := by
    have : ((ρ + 1 : Nat) : ℚ) ≤ ((2 * n : Nat) : ℚ) := by exact_mod_cast hρlt
    rw [div_le_iff₀ h2nq, sub_mul, div_mul_cancel₀ _ (ne_of_gt h2nq)]
    push_cast at this ⊢
    linarith
  have hfrac_lo : (0 : ℚ) ≤ ((ρ : Nat) : ℚ) / ((2 * n : Nat) : ℚ) := by positivity
  have hsmall : (300 : ℚ) / 2 ^ 53 < 1 := by norm_num
  have hle : r ≤ q := by
    have : (r : ℚ) < (q : ℚ) + 1 := by linarith [herr.2]
    have : r < q + 1 := by exact_mod_cast this
    omega
  have hge : q ≤ r + 1 := by
    have : (q : ℚ) < (r : ℚ) + 1 + 1 := by linarith [herr.1]
    have : q < r + 1 + 1 := by exact_mod_cast this
    omega
  refine ⟨by omega, ?_⟩
  intro htie
  have hρ1 : 1 ≤ ρ := Nat.one_le_iff_ne_zero.mpr htie
  have hfrac_lo1 : 1 / ((2 * n : Nat) : ℚ) ≤ ((ρ : Nat) : ℚ) / ((2 * n : Nat) : ℚ) := by
    have : (1 : ℚ) ≤ ((ρ : Nat) : ℚ) := by exact_mod_cast hρ1
    exact div_le_div_of_nonneg_right this (le_of_lt h2nq)
  have : (q : ℚ) < (r : ℚ) + 1 := by linarith [herr.1]
  have : q < r + 1 := by exact_mod_cast this
  omega

/-- For a task with at least one and at most 2^32 subtasks the method returns the
integer nearest to 100 * c / n with halves up, or one less; it returns that integer
whenever 100 * c / n is not half-way between two integers. -/
theorem calculateCompletionPercentage_near (task : Task) (hne : task.subtasks ≠ [])
    (hlen : task.subtasks.length ≤ 2 ^ 32) :
    (calculateCompletionPercentage task
        = roundHalfUpPercent (task.subtasks.filter (fun sub => sub.completed.truthy)).length
            task.subtasks.length ∨
      calculateCompletionPercentage task + 1
        = roundHalfUpPercent (task.subtasks.filter (fun sub => sub.completed.truthy)).length
            task.subtasks.length) ∧
    ((2 * (100 * (task.subtasks.filter (fun sub => sub.completed.truthy)).length)
        + task.subtasks.length) % (2 * task.subtasks.length) ≠ 0 →
      calculateCompletionPercentage task
        = roundHalfUpPercent (task.subtasks.filter (fun sub => sub.completed.truthy)).length
            task.subtasks.length) := by
  have hpos : 0 < task.subtasks.length := List.length_pos.mpr hne
  have hn0 : task.subtasks.length ≠ 0 := hpos.ne'
  have h := percentage_near (task.subtasks.filter (fun sub => sub.completed.truthy)).length
    task.subtasks.length hpos (List.length_filter_le _ _) hlen
  simpa [calculateCompletionPercentage, hn0] using h

/-! ## Search -/

theorem occursIn_iff (needle hay : List Char) : occursIn needle hay = true ↔ needle <:+: hay := by
  induction hay with
  | nil => simp [occursIn, List.isEmpty_iff]
  | cons c cs ih =>
    simp only [occursIn, Bool.or_eq_true, ih, List.infix_cons_iff, List.isPrefixOf_iff_prefix]

theorem includes_iff (hay needle : String) :
    includes hay needle = true ↔ needle.data <:+: hay.data :=
  occursIn_iff _ _

theorem filterExcept_ok {α : Type} (p : α → Except JsError Bool) (q : α → Bool) (l : List α)
    (h : ∀ a ∈ l, p a = .ok (q a)) : filterExcept p l = .ok (l.filter q) := by
  induction l with
  | nil => rfl
  | cons a as ih =>
    have ha := h a (List.mem_cons_self _ _)
    have hr := ih (fun b hb => h b (List.mem_cons_of_mem _ hb))
    simp only [filterExcept, ha, hr, List.filter_cons]

theorem lowerIncludes_eq (js : Runtime) (term : String) (field : JsValue)
    (h : field.isString = true) :
    lowerIncludes js field (js.toLowerCase term) = .ok (containsIgnoreCase js term field) := by
  cases field <;> simp [JsValue.isString] at h
  simp only [lowerIncludes, containsIgnoreCase]
  congr 1
  rw [Bool.eq_iff_iff, includes_iff]
  simp

theorem matchesSearch_eq (js : Runtime) (term : String) (task : Task)
    (h : task.text.isString = true ∧ task.description.isString = true ∧
      task.category.isString = true) :
    matchesSearch js (js.toLowerCase term) task = .ok (matchesIgnoreCase js term task) := by
  simp only [matchesSearch, matchesIgnoreCase, lowerIncludes_eq js term _ h.1,
    lowerIncludes_eq js term _ h.2.1, lowerIncludes_eq js term _ h.2.2]
  cases containsIgnoreCase js term task.text <;>
    cases containsIgnoreCase js term task.description <;> simp

theorem matchesIgnoreCase_of_empty (js : Runtime) (term : String) (task : Task)
    (hterm : js.toLowerCase term = "")
    (h : task.text.isString = true) : matchesIgnoreCase js term task = true := by
  cases ht : task.text <;> simp [ht, JsValue.isString] at h
  simp [matchesIgnoreCase, containsIgnoreCase, ht, hterm]

/-- C3: on tasks whose text, description and category are strings, searchTasks with
the term that the search box listener stores returns exactly the tasks, in their
original order, for which the term is contained, ignoring case, in the text or the
description or the category; for an empty term the list is returned as it is; and a
task whose text is in lower case and holds the lower-cased letters of the term is
among the results. -/
theorem searchTasks_spec (js : Runtime) (s : TodoListManager) (term : String)
    (tasks : List Task)
    (hstr : ∀ t ∈ tasks, t.text.isString = true ∧ t.description.isString = true ∧
      t.category.isString = true) :
    searchTasks js (searchInput js s term) tasks
      = .ok (tasks.filter (matchesIgnoreCase js term)) ∧
    (js.toLowerCase term = "" → searchTasks js (searchInput js s term) tasks = .ok tasks) ∧
    searchTasks js { s with searchTerm := "" } tasks = .ok tasks ∧
    (∀ t ∈ tasks, ∀ str, t.text = .string str → js.toLowerCase str = str →
      (js.toLowerCase term).data <:+: str.data →
      t ∈ tasks.filter (matchesIgnoreCase js term)) := by
  refine ⟨?_, ?_, ?_, ?_⟩
  · by_cases hterm : js.toLowerCase term = ""
    · have hall : tasks.filter (matchesIgnoreCase js term) = tasks :=
        List.filter_eq_self.mpr (fun t ht => matchesIgnoreCase_of_empty js term t hterm (hstr t ht).1)
      simp [searchTasks, searchInput, hterm, hall]
    · simp only [searchTasks, searchInput, hterm, if_false]
      exact filterExcept_ok _ _ _ (fun t ht => matchesSearch_eq js term t (hstr t ht))
  · intro hterm
    simp [searchTasks, searchInput, hterm]
  · simp [searchTasks]
  · intro t ht str htext hlow hin
    refine List.mem_filter.mpr ⟨ht, ?_⟩
    simp [matchesIgnoreCase, containsIgnoreCase, htext, hlow, hin]

/-- Witness for C3: the term MILK finds the task whose text is Buy milk and not the
task whose text is Walk the dog. -/
theorem searchTasks_spec_witness :
    (∀ t ∈ [sampleTask 1 "Buy milk", sampleTask 2 "Walk the dog"],
      t.text.isString = true ∧ t.description.isString = true ∧ t.category.isString = true) ∧
    searchTasks sampleRuntime (searchInput sampleRuntime TodoListManager.empty "MILK")
      [sampleTask 1 "Buy milk", sampleTask 2 "Walk the dog"] = .ok [sampleTask 1 "Buy milk"] :=
  ⟨by decide,
   by rw [(searchTasks_spec sampleRuntime TodoListManager.empty "MILK"
        [sampleTask 1 "Buy milk", sampleTask 2 "Walk the dog"] (by decide)).1]
      exact congrArg Except.ok (by decide)⟩

/-! ## The find-and-assign pattern -/

theorem strictEq_iff (a b : JsValue) : strictEq a b = true ↔ a = b := by
  simp [strictEq]

theorem find_none_of_no_id (tasks : List Task) (id : JsValue) (h : ∀ t ∈ tasks, t.id ≠ id) :
    tasks.find? (fun task => strictEq task.id id) = none := by
  rw [List.find?_eq_none]
  intro t ht
  simpa [strictEq] using h t ht

theorem find_some_of_id (tasks : List Task) (id : JsValue) (h : ∃ t ∈ tasks, t.id = id) :
    ∃ task, tasks.find? (fun task => strictEq task.id id) = some task := by
  cases hf : tasks.find? (fun task => strictEq task.id id) with
  | some task => exact ⟨task, rfl⟩
  | none =>
    rw [List.find?_eq_none] at hf
    obtain ⟨t, ht, hid⟩ := h
    exact absurd (by simpa [strictEq] using hid) (hf t ht)

theorem updateFirst_length {α : Type} (p : α → Bool) (f : α → α) (l : List α) :
    (updateFirst p f l).length = l.length := by
  induction l with
  | nil => rfl
  | cons a as ih =>
    simp only [updateFirst]
    split <;> simp [ih]

theorem updateFirst_of_none {α : Type} (p : α → Bool) (f : α → α) (l : List α)
    (h : l.find? p = none) : updateFirst p f l = l := by
  induction l with
  | nil => rfl
  | cons a as ih =>
    rw [List.find?_cons] at h
    cases hp : p a
    · rw [hp] at h
      simp [updateFirst, hp, ih h]
    · rw [hp] at h
      simp at h

/-- The element that find returns splits the list: nothing before it satisfies the
test, and updateFirst changes that element alone. -/
theorem updateFirst_of_some {α : Type} (p : α → Bool) (f : α → α) (l : List α) (a : α)
    (h : l.find? p = some a) :
    ∃ before after, l = before ++ a :: after ∧ (∀ x ∈ before, p x = false) ∧ p a = true ∧
      updateFirst p f l = before ++ f a :: after := by
  induction l with
  | nil => simp at h
  | cons b bs ih =>
    rw [List.find?_cons] at h
    cases hp : p b
    · rw [hp] at h
      obtain ⟨before, after, h1, h2, h3, h4⟩ := ih h
      refine ⟨b :: before, after, by simp [h1], ?_, h3, by simp [updateFirst, hp, h4]⟩
      intro x hx
      rcases List.mem_cons.mp hx with rfl | hx
      · exact hp
      · exact h2 x hx
    · rw [hp] at h
      have hba : b = a := by simpa using h
      subst hba
      exact ⟨[], bs, rfl, by simp, hp, by simp [updateFirst, hp]⟩

/-! ## addTask -/

/-- C4: when the trimmed input is empty addTask leaves the state as it is; otherwise
the new collection is the old one followed by one new task whose text is the trimmed
input, which is not completed, has no subtasks, an empty description, the clock
reading as its id, the chosen priority and category, and as due date the given date,
or null when the date field is empty. -/
theorem addTask_spec (js : Runtime) (s : TodoListManager)
    (inputValue priority category date : String) (now created updated : Int) :
    (trim inputValue = "" →
      addTask js s inputValue priority category date now created updated = s) ∧
    (trim inputValue ≠ "" →
      ∃ newTask : Task,
        (addTask js s inputValue priority category date now created updated).tasks
          = s.tasks ++ [newTask] ∧
        newTask.text = .string (trim inputValue) ∧
        newTask.completed = .bool false ∧
        newTask.subtasks = [] ∧
        newTask.description = .string "" ∧
        newTask.dueDate = (if date = "" then .null else .string date) ∧
        newTask.id = .number now ∧
        newTask.priority = .string priority ∧
        newTask.category = .string category) := by
  constructor
  · intro h
    simp [addTask, h]
  · intro h
    refine ⟨Task.new (.number now) (.string (trim inputValue)) (.bool false) (.string priority)
      (.string category) (orNull (.string date)) (.string "") none (some created) (some updated),
      by simp [addTask, h, saveTasksToLocalStorage], rfl, rfl, rfl, rfl, ?_, rfl, rfl, rfl⟩
    by_cases hd : date = ""
    · simp [Task.new, orNull, JsValue.truthy, orDefault, hd]
    · simp [Task.new, orNull, JsValue.truthy, orDefault, hd]

/-- Witness for C4: a blank input changes nothing, and the input Buy milk with
surrounding blanks appends the task Buy milk without a due date. -/
theorem addTask_spec_witness :
    addTask sampleRuntime TodoListManager.empty "   " "medium" "personal" "" 7 7 7
      = TodoListManager.empty ∧
    (addTask sampleRuntime TodoListManager.empty "  Buy milk " "medium" "personal" "" 7 7 7).tasks
      = [sampleTask 7 "Buy milk"] :=
  ⟨(addTask_spec sampleRuntime TodoListManager.empty "   " "medium" "personal" "" 7 7 7).1
      (by decide),
   by decide⟩

/-! ## deleteTask -/

/-- C9: after the removal step of deleteTask the collection holds no task with the
id; it is the old collection without the tasks that have the id, so every task with
another id is kept as it was and in its place, and the subtasks that remain belong to
tasks with another id; when no task has the id the collection is as before.  The
removal step is what deleteTask runs when the list element of the task is found. -/
theorem deleteTaskRemoval_spec (js : Runtime) (s : TodoListManager) (id : JsValue) :
    (∀ t ∈ (deleteTaskRemoval js s id).tasks, t.id ≠ id) ∧
    (deleteTaskRemoval js s id).tasks = s.tasks.filter (fun t => decide (t.id ≠ id)) ∧
    (deleteTaskRemoval js s id).tasks.Sublist s.tasks ∧
    (∀ t ∈ s.tasks, t.id ≠ id → t ∈ (deleteTaskRemoval js s id).tasks) ∧
    (∀ t ∈ (deleteTaskRemoval js s id).tasks, ∀ sub ∈ t.subtasks,
      ∃ parent ∈ s.tasks, parent.id ≠ id ∧ sub ∈ parent.subtasks) ∧
    ((∀ t ∈ s.tasks, t.id ≠ id) → (deleteTaskRemoval js s id).tasks = s.tasks) ∧
    deleteTask js s true id = deleteTaskRemoval js s id := by
  have hfilter : (deleteTaskRemoval js s id).tasks
      = s.tasks.filter (fun t => decide (t.id ≠ id)) := by
    simp only [deleteTaskRemoval, saveTasksToLocalStorage, strictEq]
    congr 1
    funext t
    simp
  refine ⟨?_, hfilter, ?_, ?_, ?_, ?_, rfl⟩
  · intro t ht
    rw [hfilter] at ht
    simpa using (List.mem_filter.mp ht).2
  · rw [hfilter]
    exact List.filter_sublist _
  · intro t ht hne
    rw [hfilter]
    exact List.mem_filter.mpr ⟨ht, by simpa using hne⟩
  · intro t ht sub hsub
    rw [hfilter] at ht
    obtain ⟨h1, h2⟩ := List.mem_filter.mp ht
    exact ⟨t, h1, by simpa using h2, hsub⟩
  · intro h
    rw [hfilter]
    exact List.filter_eq_self.mpr (fun t ht => by simpa using h t ht)

/-- Witness for C9: removing id 1 from tasks with the ids 1, 2, 1 leaves the task
with id 2, and removing the absent id 3 leaves all three. -/
theorem deleteTaskRemoval_spec_witness :
    (deleteTaskRemoval sampleRuntime
      { TodoListManager.empty with
        tasks := [sampleTask 1 "a", sampleTask 2 "b", sampleTask 1 "c"] }
      (.number 1)).tasks = [sampleTask 2 "b"] ∧
    (deleteTaskRemoval sampleRuntime
      { TodoListManager.empty with
        tasks := [sampleTask 1 "a", sampleTask 2 "b", sampleTask 1 "c"] }
      (.number 3)).tasks = [sampleTask 1 "a", sampleTask 2 "b", sampleTask 1 "c"] :=
  ⟨by
    rw [(deleteTaskRemoval_spec sampleRuntime _ (.number 1)).2.1]
    decide,
   (deleteTaskRemoval_spec sampleRuntime _ (.number 3)).2.2.2.2.2.1 (by decide)⟩

/-! ## editTask -/

/-- C10: when no task has the id or the trimmed new text is empty, editTask leaves
the state as it is; otherwise the collection is the old one with the first task that
has the id replaced, in its place, by a task with the same id, completed flag,
subtasks and creation date, and with the new text, priority, category, due date and
description; the length is the same and all other tasks are untouched. -/
theorem editTask_spec (js : Runtime) (s : TodoListManager) (id : JsValue) (newText : String)
    (newPriority newCategory newDueDate newDescription : JsValue) (now : Int) :
    (((∀ t ∈ s.tasks, t.id ≠ id) ∨ trim newText = "") →
      editTask js s id newText newPriority newCategory newDueDate newDescription now = s) ∧
    ((∃ t ∈ s.tasks, t.id = id) → trim newText ≠ "" →
      ∃ before task after edited,
        s.tasks = before ++ task :: after ∧
        (∀ x ∈ before, x.id ≠ id) ∧ task.id = id ∧
        (editTask js s id newText newPriority newCategory newDueDate newDescription now).tasks
          = before ++ edited :: after ∧
        (editTask js s id newText newPriority newCategory newDueDate newDescription
          now).tasks.length = s.tasks.length ∧
        edited.id = task.id ∧ edited.completed = task.completed ∧
        edited.subtasks = task.subtasks ∧ edited.createdAt = task.createdAt ∧
        edited.text = .string (trim newText) ∧ edited.priority = newPriority ∧
        edited.category = newCategory ∧ edited.dueDate = orNull newDueDate ∧
        edited.description = newDescription ∧ edited.updatedAt = some now) := by
  constructor
  · rintro (h | h)
    · simp [editTask, find_none_of_no_id s.tasks id h]
    · unfold editTask
      split
      · simp [h]
      · rfl
  · intro hex htext
    obtain ⟨task, hfind⟩ := find_some_of_id s.tasks id hex
    obtain ⟨before, after, h1, h2, h3, h4⟩ := updateFirst_of_some _
      (fun task : Task => { task with
          text := .string (trim newText)
          priority := newPriority
          category := newCategory
          dueDate := orNull newDueDate
          description := newDescription
          updatedAt := some now }) s.tasks task hfind
    have htasks : (editTask js s id newText newPriority newCategory newDueDate newDescription
        now).tasks = before ++ { task with
          text := .string (trim newText)
          priority := newPriority
          category := newCategory
          dueDate := orNull newDueDate
          description := newDescription
          updatedAt := some now } :: after := by
      simp only [editTask, hfind, saveTasksToLocalStorage]
      simpa [htext] using h4
    refine ⟨before, task, after, _, h1, ?_, (strictEq_iff _ _).mp h3, htasks, ?_,
      rfl, rfl, rfl, rfl, rfl, rfl, rfl, rfl, rfl, rfl⟩
    · intro x hx
      have := h2 x hx
      simpa [strictEq] using this
    · rw [htasks, h1]
      simp

/-- Witness for C10: editing the second of three tasks. -/
theorem editTask_spec_witness :
    (editTask sampleRuntime
      { TodoListManager.empty with
        tasks := [sampleTask 1 "a", sampleTask 2 "b", sampleTask 3 "c"] }
      (.number 2) " B " (.string "high") (.string "work") .null (.string "") 9).tasks
      = [sampleTask 1 "a",
         { sampleTask 2 "B" with
           priority := .string "high", category := .string "work", updatedAt := some 9 },
         sampleTask 3 "c"] ∧
    editTask sampleRuntime TodoListManager.empty (.number 2) "B" .null .null .null .null 9
      = TodoListManager.empty :=
  ⟨by decide,
   (editTask_spec sampleRuntime TodoListManager.empty (.number 2) "B" .null .null .null .null
      9).1 (Or.inl (by decide))⟩

/-! ## Subtask operations on absent ids -/

/-- When no task has the task id, or the task found has no subtask with the subtask
id, toggleSubtaskCompletion leaves the state as it is. -/
theorem toggleSubtaskCompletion_absent (js : Runtime) (s : TodoListManager)
    (taskId subtaskId : JsValue) (now : Int)
    (h : (∀ t ∈ s.tasks, t.id ≠ taskId) ∨
      (∀ task, s.tasks.find? (fun task => strictEq task.id taskId) = some task →
        ∀ sub ∈ task.subtasks, sub.id ≠ subtaskId)) :
    toggleSubtaskCompletion js s taskId subtaskId now = s := by
  rcases h with h | h
  · simp [toggleSubtaskCompletion, find_none_of_no_id s.tasks taskId h]
  · unfold toggleSubtaskCompletion
    split
    · rename_i task hfind
      have hnone : task.subtasks.find? (fun sub => strictEq sub.id subtaskId) = none := by
        rw [List.find?_eq_none]
        intro sub hsub
        simpa [strictEq] using h task hfind sub hsub
      simp [hnone]
    · rfl

/-- When no task has the task id, deleteSubtask leaves the state as it is. -/
theorem deleteSubtask_task_absent (js : Runtime) (s : TodoListManager)
    (taskId subtaskId : JsValue) (now : Int) (h : ∀ t ∈ s.tasks, t.id ≠ taskId) :
    deleteSubtask js s taskId subtaskId now = s := by
  simp [deleteSubtask, find_none_of_no_id s.tasks taskId h]

/-- When the task found has no subtask with the subtask id, deleteSubtask changes
nothing in the collection but the updatedAt of that task, which it sets to the clock
reading. -/
theorem deleteSubtask_subtask_absent (js : Runtime) (s : TodoListManager)
    (taskId subtaskId : JsValue) (now : Int) (task : Task)
    (hfind : s.tasks.find? (fun task => strictEq task.id taskId) = some task)
    (hsub : ∀ sub ∈ task.subtasks, sub.id ≠ subtaskId) :
    ∃ before after, s.tasks = before ++ task :: after ∧
      (deleteSubtask js s taskId subtaskId now).tasks
        = before ++ { task with updatedAt := some now } :: after := by
  obtain ⟨before, after, h1, _, _, h4⟩ := updateFirst_of_some _
    (fun task : Task => { task with
        subtasks := task.subtasks.filter (fun sub => !strictEq sub.id subtaskId)
        updatedAt := some now }) s.tasks task hfind
  refine ⟨before, after, h1, ?_⟩
  have hkeep : task.subtasks.filter (fun sub => !strictEq sub.id subtaskId) = task.subtasks :=
    List.filter_eq_self.mpr (fun sub hs => by simpa [strictEq] using hsub sub hs)
  simp only [deleteSubtask, hfind, saveTasksToLocalStorage]
  rw [h4, hkeep]

/-- C6: on the collection that holds the one task 1 without subtasks, created and
updated at time 1, the call deleteSubtask(1, 99) at time 5 changes the collection: the
updatedAt of the task becomes 5 although the task has no subtask 99, while
toggleSubtaskCompletion(1, 99) leaves the state as it is. -/
theorem deleteSubtask_absent_subtask_refreshes_updatedAt :
    (∀ sub ∈ (sampleTask 1 "Buy milk").subtasks, sub.id ≠ .number 99) ∧
    (deleteSubtask sampleRuntime
      { TodoListManager.empty with tasks := [sampleTask 1 "Buy milk"] }
      (.number 1) (.number 99) 5).tasks
      = [{ sampleTask 1 "Buy milk" with updatedAt := some 5 }] ∧
    (deleteSubtask sampleRuntime
      { TodoListManager.empty with tasks := [sampleTask 1 "Buy milk"] }
      (.number 1) (.number 99) 5).tasks ≠ [sampleTask 1 "Buy milk"] ∧
    toggleSubtaskCompletion sampleRuntime
      { TodoListManager.empty with tasks := [sampleTask 1 "Buy milk"] }
      (.number 1) (.number 99) 5
      = { TodoListManager.empty with tasks := [sampleTask 1 "Buy milk"] } := by
  decide

/-! ## importTasks -/

theorem mapExcept_error {α β : Type} (f : α → Except JsError β) (l : List α)
    (h : ∃ a ∈ l, ∃ err, f a = .error err) : ∃ err, mapExcept f l = .error err := by
  induction l with
  | nil => simp at h
  | cons a as ih =>
    cases hfa : f a with
    | error e => exact ⟨e, by simp [mapExcept, hfa]⟩
    | ok b =>
      have hrest : ∃ x ∈ as, ∃ err, f x = .error err := by
        obtain ⟨x, hx, err, herr⟩ := h
        rcases List.mem_cons.mp hx with rfl | hx
        · rw [hfa] at herr
          cases herr
        · exact ⟨x, hx, err, herr⟩
      obtain ⟨err, herr⟩ := ih hrest
      exact ⟨err, by simp [mapExcept, hfa, herr]⟩

/-- The elements that the conversion rejects: null, and elements whose subtasks
property is a truthy value that is not an array, or an array that holds null. -/
theorem taskOfJson_error_iff (js : Runtime) (e : JsonElem) :
    (∃ err, taskOfJson js e = .error err) ↔
      (e = .null ∨ ∃ o, e = .value o ∧
        (o.subtasks = .object ∨ (∃ v, o.subtasks = .value v ∧ v.truthy = true) ∨
          ∃ subs, o.subtasks = .array subs ∧ JsonSubtask.null ∈ subs)) := by
  have hsubs : ∀ subs : List JsonSubtask,
      (∃ err, mapExcept subtaskOfJson subs = .error err) ↔ JsonSubtask.null ∈ subs := by
    intro subs
    induction subs with
    | nil => simp [mapExcept]
    | cons a as ih =>
      cases a with
      | null => simp [mapExcept, subtaskOfJson]
      | object i t c =>
        cases hm : mapExcept subtaskOfJson as with
        | error e =>
          have : JsonSubtask.null ∈ as := ih.mp ⟨e, hm⟩
          simp [mapExcept, subtaskOfJson, hm, this]
        | ok bs =>
          have : ¬ JsonSubtask.null ∈ as := fun hmem => by
            obtain ⟨err, herr⟩ := ih.mpr hmem
            rw [hm] at herr
            cases herr
          simp [mapExcept, subtaskOfJson, hm, this]
  cases e with
  | null => simp [taskOfJson]
  | value o =>
    cases hs : o.subtasks with
    | object => simp [taskOfJson, subtasksOfJson, hs]
    | value v =>
      cases hv : v.truthy <;> simp [taskOfJson, subtasksOfJson, hs, hv]
    | array subs =>
      have := hsubs subs
      cases hm : mapExcept subtaskOfJson subs with
      | error e =>
        have hmem : JsonSubtask.null ∈ subs := this.mp ⟨e, hm⟩
        simp [taskOfJson, subtasksOfJson, hs, hm, hmem]
      | ok bs =>
        have hmem : ¬ JsonSubtask.null ∈ subs := fun hmem => by
          obtain ⟨err, herr⟩ := this.mpr hmem
          rw [hm] at herr
          cases herr
        simp [taskOfJson, subtasksOfJson, hs, hm, hmem]

/-- C7: when the text of the file does not parse, or parses to a value that is not
an array, or parses to an array with an element whose conversion to a task throws,
the method importTasks leaves the state, and with it the task collection, as it was. -/
theorem importTasks_failure_keeps_tasks (js : Runtime) (s : TodoListManager) (text : JsonText)
    (h : text = .empty ∨ text = .malformed ∨ text = .nonArray ∨
      ∃ elems, text = .array elems ∧ ∃ e ∈ elems, ∃ err, taskOfJson js e = .error err) :
    (importTasks js s (some text)).tasks = s.tasks ∧ importTasks js s (some text) = s := by
  have hs : importTasks js s (some text) = s := by
    rcases h with h | h | h | ⟨elems, h, hbad⟩
    · simp [importTasks, importedTasks, h]
    · simp [importTasks, importedTasks, h]
    · simp [importTasks, importedTasks, h]
    · obtain ⟨err, herr⟩ := mapExcept_error (taskOfJson js) elems hbad
      simp [importTasks, importedTasks, h, herr]
  exact ⟨by rw [hs], hs⟩

/-- Witness for C7: a file that parses to an array whose second element is null
leaves a collection of one task as it was. -/
theorem importTasks_failure_keeps_tasks_witness :
    (∃ e ∈ [JsonElem.value (sampleJsonObject 2 "A"), JsonElem.null],
      ∃ err, taskOfJson sampleRuntime e = .error err) ∧
    (importTasks sampleRuntime
      { TodoListManager.empty with tasks := [sampleTask 1 "Buy milk"] }
      (some (.array [.value (sampleJsonObject 2 "A"), .null]))).tasks
      = [sampleTask 1 "Buy milk"] :=
  ⟨⟨.null, by simp, .typeError, rfl⟩,
   (importTasks_failure_keeps_tasks sampleRuntime
      { TodoListManager.empty with tasks := [sampleTask 1 "Buy milk"] }
      (.array [.value (sampleJsonObject 2 "A"), .null])
      (Or.inr (Or.inr (Or.inr ⟨_, rfl, .null, by simp, .typeError, rfl⟩)))).1⟩

/-! ## Distinct ids -/

theorem taskIds_updateFirst (p : Task → Bool) (f : Task → Task) (l : List Task)
    (hf : ∀ t, (f t).id = t.id) : taskIds (updateFirst p f l) = taskIds l := by
  induction l with
  | nil => rfl
  | cons a as ih =>
    simp only [updateFirst]
    split
    · simp [taskIds, hf]
    · simp only [taskIds, List.map_cons] at ih ⊢
      rw [ih]

theorem taskIds_editTask (js : Runtime) (s : TodoListManager) (id : JsValue) (newText : String)
    (newPriority newCategory newDueDate newDescription : JsValue) (now : Int) :
    taskIds (editTask js s id newText newPriority newCategory newDueDate newDescription
      now).tasks = taskIds s.tasks := by
  unfold editTask
  split
  · split
    · exact taskIds_updateFirst _ _ _ (fun _ => rfl)
    · rfl
  · rfl

theorem taskIds_toggleTaskCompletion (js : Runtime) (s : TodoListManager) (id : JsValue)
    (now : Int) : taskIds (toggleTaskCompletion js s id now).tasks = taskIds s.tasks := by
  unfold toggleTaskCompletion
  split
  · exact taskIds_updateFirst _ _ _ (fun _ => rfl)
  · rfl

theorem taskIds_addSubtask (js : Runtime) (s : TodoListManager) (taskId : JsValue)
    (subtaskText : String) (now updated : Int) :
    taskIds (addSubtask js s taskId subtaskText now updated).tasks = taskIds s.tasks := by
  unfold addSubtask
  split
  · split
    · exact taskIds_updateFirst _ _ _ (fun _ => rfl)
    · rfl
  · rfl

theorem taskIds_toggleSubtaskCompletion (js : Runtime) (s : TodoListManager)
    (taskId subtaskId : JsValue) (now : Int) :
    taskIds (toggleSubtaskCompletion js s taskId subtaskId now).tasks = taskIds s.tasks := by
  unfold toggleSubtaskCompletion
  split
  · split
    · exact taskIds_updateFirst _ _ _ (fun _ => rfl)
    · rfl
  · rfl

theorem taskIds_deleteSubtask (js : Runtime) (s : TodoListManager)
    (taskId subtaskId : JsValue) (now : Int) :
    taskIds (deleteSubtask js s taskId subtaskId now).tasks = taskIds s.tasks := by
  unfold deleteSubtask
  split
  · exact taskIds_updateFirst _ _ _ (fun _ => rfl)
  · rfl

/-- One call keeps the ids pairwise distinct when it meets keepsIdsDistinct. -/
theorem step_keeps_ids_distinct (js : Runtime) (s : TodoListManager) (op : Op)
    (hs : (taskIds s.tasks).Nodup) (hop : op.keepsIdsDistinct js s) :
    (taskIds (step js s op).tasks).Nodup := by
  cases op with
  | addTask inputValue priority category date now created updated =>
    simp only [step, addTask]
    split
    · rename_i htext
      have hfresh : JsValue.number now ∉ taskIds s.tasks := by
        rcases hop with h | h
        · exact absurd h htext
        · exact h
      simp only [saveTasksToLocalStorage, taskIds, List.map_append, List.map_cons, List.map_nil]
      rw [List.nodup_append]
      refine ⟨hs, List.nodup_singleton _, ?_⟩
      intro a ha hb
      rw [List.mem_singleton] at hb
      subst hb
      exact hfresh ha
    · exact hs
  | editTask id newText newPriority newCategory newDueDate newDescription now =>
    simp only [step, taskIds_editTask]
    exact hs
  | deleteTask elementFound id =>
    simp only [step, deleteTask]
    split
    · exact hs.sublist ((List.filter_sublist _).map _)
    · exact hs
  | toggleTaskCompletion id now =>
    simp only [step, taskIds_toggleTaskCompletion]
    exact hs
  | addSubtask taskId subtaskText now updated =>
    simp only [step, taskIds_addSubtask]
    exact hs
  | toggleSubtaskCompletion taskId subtaskId now =>
    simp only [step, taskIds_toggleSubtaskCompletion]
    exact hs
  | deleteSubtask taskId subtaskId now =>
    simp only [step, taskIds_deleteSubtask]
    exact hs
  | clearAllTasks confirmed =>
    simp only [step, clearAllTasks]
    split
    · simp [saveTasksToLocalStorage, taskIds]
    · exact hs
  | importTasks file =>
    cases file with
    | none => exact hs
    | some text =>
      simp only [step, importTasks]
      split
      · rename_i ts hts
        simp only [Op.keepsIdsDistinct, hts] at hop
        exact hop
      · exact hs
  | setFilter filter => exact hs
  | searchInput value => exact hs

theorem run_keeps_ids_distinct (js : Runtime) (ops : List Op) :
    ∀ s : TodoListManager, (taskIds s.tasks).Nodup → KeepsIdsDistinct js s ops →
      (taskIds (run js s ops).tasks).Nodup := by
  induction ops with
  | nil => intro s hs _; exact hs
  | cons op ops ih =>
    intro s hs h
    exact ih (step js s op) (step_keeps_ids_distinct js s op hs h.1) h.2

/-- C5, as stated, fails: two addTask calls that read the same clock value 5 leave
two tasks with the id 5 in the collection, and so does the import of a file that
holds two elements with the id 5. -/
theorem ids_not_distinct_same_clock :
    ¬ (taskIds (run sampleRuntime TodoListManager.empty
        [.addTask "a" "medium" "personal" "" 5 5 5,
         .addTask "b" "medium" "personal" "" 5 5 5]).tasks).Nodup ∧
    ¬ (taskIds (run sampleRuntime TodoListManager.empty
        [.importTasks (some (.array [.value (sampleJsonObject 5 "a"),
          .value (sampleJsonObject 5 "b")]))]).tasks).Nodup := by
  decide

/-- C5, amended: starting from the empty store, after any sequence of calls in which
every addTask that adds a task reads a clock value that is not the id of a task then
in the collection and every import that succeeds brings pairwise distinct ids, no two
tasks of the collection have the same id. -/
theorem ids_distinct_of_fresh_clock (js : Runtime) (ops : List Op)
    (h : KeepsIdsDistinct js TodoListManager.empty ops) :
    (taskIds (run js TodoListManager.empty ops).tasks).Nodup :=
  run_keeps_ids_distinct js ops TodoListManager.empty List.nodup_nil h

/-- Witness for C5: two tasks added at clock values 5 and 6, the first one edited,
completed and deleted again, then a third task added at 7. -/
theorem ids_distinct_of_fresh_clock_witness :
    KeepsIdsDistinct sampleRuntime TodoListManager.empty
      [.addTask "a" "medium" "personal" "" 5 5 5,
       .addTask "b" "medium" "personal" "" 6 6 6,
       .editTask (.number 5) "c" (.string "high") (.string "work") .null (.string "") 7,
       .toggleTaskCompletion (.number 5) 7,
       .deleteTask true (.number 5),
       .addTask "d" "low" "work" "2030-01-01" 7 7 7] ∧
    (taskIds (run sampleRuntime TodoListManager.empty
      [.addTask "a" "medium" "personal" "" 5 5 5,
       .addTask "b" "medium" "personal" "" 6 6 6,
       .editTask (.number 5) "c" (.string "high") (.string "work") .null (.string "") 7,
       .toggleTaskCompletion (.number 5) 7,
       .deleteTask true (.number 5),
       .addTask "d" "low" "work" "2030-01-01" 7 7 7]).tasks).Nodup :=
  ⟨by decide, ids_distinct_of_fresh_clock sampleRuntime _ (by decide)⟩

/-! ## Save and load -/

theorem orDefault_of_defined (v d : JsValue) (h : v ≠ .undefined) : orDefault v d = v := by
  cases v <;> simp [orDefault] at h ⊢

theorem orDefault_defined (v d : JsValue) (h : d ≠ .undefined) : orDefault v d ≠ .undefined := by
  cases v <;> simp [orDefault, h]

theorem orNull_defined (v : JsValue) : orNull v ≠ .undefined := by
  cases v <;> simp [orNull, JsValue.truthy]
  all_goals split <;> simp

theorem mapExcept_ok_map {α β : Type} (f : α → Except JsError β) (g : α → β) (l : List α)
    (h : ∀ a ∈ l, f a = .ok (g a)) : mapExcept f l = .ok (l.map g) := by
  induction l with
  | nil => rfl
  | cons a as ih =>
    have ha := h a (List.mem_cons_self _ _)
    have hr := ih (fun b hb => h b (List.mem_cons_of_mem _ hb))
    simp [mapExcept, ha, hr]

theorem mapExcept_mem {α β : Type} (f : α → Except JsError β) (l : List α) :
    ∀ bs, mapExcept f l = .ok bs → ∀ b ∈ bs, ∃ a ∈ l, f a = .ok b := by
  induction l with
  | nil =>
    intro bs h b hb
    simp [mapExcept] at h
    subst h
    simp at hb
  | cons a as ih =>
    intro bs h b hb
    cases hfa : f a with
    | error e => simp [mapExcept, hfa] at h
    | ok b0 =>
      cases hm : mapExcept f as with
      | error e => simp [mapExcept, hfa, hm] at h
      | ok rest =>
        simp [mapExcept, hfa, hm] at h
        subst h
        rcases List.mem_cons.mp hb with rfl | hb
        · exact ⟨a, List.mem_cons_self _ _, hfa⟩
        · obtain ⟨x, hx, hfx⟩ := ih rest hm b hb
          exact ⟨x, List.mem_cons_of_mem _ hx, hfx⟩

theorem mapExcept_map_ok {α β γ : Type} (f : β → Except JsError γ) (h : α → β) (g : α → γ)
    (l : List α) (hfg : ∀ a ∈ l, f (h a) = .ok (g a)) :
    mapExcept f (l.map h) = .ok (l.map g) := by
  induction l with
  | nil => rfl
  | cons a as ih =>
    have ha := hfg a (List.mem_cons_self _ _)
    have hr := ih (fun b hb => hfg b (List.mem_cons_of_mem _ hb))
    simp [mapExcept, ha, hr]

/-- What loading makes of a task that was saved: the task with its dates written
through toJSON and read back through new Date. -/
theorem taskOfJson_taskToJson (js : Runtime) (t : Task) (h : t.defaultsApplied) :
    taskOfJson js (taskToJson js t)
      = .ok { t with
              createdAt := newDate js (dateToJSON js t.createdAt)
              updatedAt := newDate js (dateToJSON js t.updatedAt) } := by
  obtain ⟨h1, h2, h3, h4, h5, h6⟩ := h
  have hsubs : mapExcept subtaskOfJson (t.subtasks.map subtaskToJson) = .ok t.subtasks := by
    have := mapExcept_map_ok subtaskOfJson subtaskToJson id t.subtasks
      (by
        intro sub hsub
        simp [subtaskOfJson, subtaskToJson, Subtask.new, orDefault_of_defined _ _ (h6 sub hsub)])
    simpa using this
  simp [taskOfJson, taskToJson, subtasksOfJson, hsubs, Task.new, orDefault_of_defined _ _ h1,
    orDefault_of_defined _ _ h2, orDefault_of_defined _ _ h3, orDefault_of_defined _ _ h4,
    orDefault_of_defined _ _ h5]

/-- Loading what was saved, in a manager that starts without tasks, yields the saved
tasks in their order, each with the same data, when no defaulted field holds
undefined. -/
theorem load_after_save (js : Runtime) (s : TodoListManager)
    (h : ∀ t ∈ s.tasks, t.defaultsApplied) :
    ∃ loaded,
      loadTasksFromLocalStorage js
        { TodoListManager.empty with storage := (saveTasksToLocalStorage js s).storage }
        = .ok loaded ∧
      loaded.tasks.length = s.tasks.length ∧
      List.Forall₂ sameData s.tasks loaded.tasks := by
  have hmap := mapExcept_map_ok (taskOfJson js) (taskToJson js)
    (fun t : Task => { t with
        createdAt := newDate js (dateToJSON js t.createdAt)
        updatedAt := newDate js (dateToJSON js t.updatedAt) })
    s.tasks (fun t ht => taskOfJson_taskToJson js t (h t ht))
  refine ⟨{ TodoListManager.empty with
      tasks := s.tasks.map (fun t : Task => { t with
        createdAt := newDate js (dateToJSON js t.createdAt)
        updatedAt := newDate js (dateToJSON js t.updatedAt) })
      storage := some (stringify js s.tasks) }, ?_, by simp, ?_⟩
  · simp only [loadTasksFromLocalStorage, saveTasksToLocalStorage, stringify, hmap]
  · simp only [List.forall₂_map_right_iff]
    refine List.forall₂_same.mpr ?_
    intro t _
    simp [sameData]

theorem updateFirst_forall {α : Type} (P : α → Prop) (p : α → Bool) (f : α → α) (l : List α)
    (hl : ∀ a ∈ l, P a) (hf : ∀ a, P a → P (f a)) : ∀ a ∈ updateFirst p f l, P a := by
  induction l with
  | nil => simp [updateFirst]
  | cons b bs ih =>
    have hb := hl b (List.mem_cons_self _ _)
    have hbs := ih (fun a ha => hl a (List.mem_cons_of_mem _ ha))
    simp only [updateFirst]
    split
    · intro a ha
      rcases List.mem_cons.mp ha with rfl | ha
      · exact hf b hb
      · exact hl a (List.mem_cons_of_mem _ ha)
    · intro a ha
      rcases List.mem_cons.mp ha with rfl | ha
      · exact hb
      · exact hbs a ha

theorem subtaskOfJson_defined (j : JsonSubtask) (sub : Subtask)
    (h : subtaskOfJson j = .ok sub) : sub.completed ≠ .undefined := by
  cases j with
  | null => simp [subtaskOfJson] at h
  | object i x c =>
    simp [subtaskOfJson, Subtask.new] at h
    subst h
    exact orDefault_defined _ _ (by simp)

theorem Task.new_defaultsApplied (id text completed priority category dueDate
    description : JsValue) (subtasks : Option (List Subtask)) (created updated : JsDate)
    (h : ∀ sub ∈ subtasks.getD [], sub.completed ≠ .undefined) :
    (Task.new id text completed priority category dueDate description subtasks created
      updated).defaultsApplied :=
  ⟨orDefault_defined completed _ (by simp), orDefault_defined priority _ (by simp),
    orDefault_defined category _ (by simp), orDefault_defined dueDate _ (by simp),
    orDefault_defined description _ (by simp), h⟩

theorem taskOfJson_defaultsApplied (js : Runtime) (e : JsonElem) (t : Task)
    (h : taskOfJson js e = .ok t) : t.defaultsApplied := by
  cases e with
  | null => simp [taskOfJson] at h
  | value o =>
    cases hs : subtasksOfJson o.subtasks with
    | error err => simp [taskOfJson, hs] at h
    | ok subs =>
      simp [taskOfJson, hs, Task.new] at h
      subst h
      refine ⟨orDefault_defined _ _ (by simp), orDefault_defined _ _ (by simp),
        orDefault_defined _ _ (by simp), orDefault_defined _ _ (by simp),
        orDefault_defined _ _ (by simp), ?_⟩
      intro sub hsub
      cases ho : o.subtasks with
      | object => simp [subtasksOfJson, ho] at hs
      | value v =>
        simp only [subtasksOfJson, ho] at hs
        split at hs
        · cases hs
        · cases hs
          simp at hsub
      | array js0 =>
        simp only [subtasksOfJson, ho] at hs
        obtain ⟨j, _, hj⟩ := mapExcept_mem subtaskOfJson js0 subs hs sub hsub
        exact subtaskOfJson_defined j sub hj

/-- One call keeps the defaulted fields defined when editTask is passed field
values. -/
theorem step_defaultsApplied (js : Runtime) (s : TodoListManager) (op : Op)
    (hs : ∀ t ∈ s.tasks, t.defaultsApplied) (hop : op.passesFieldValues) :
    ∀ t ∈ (step js s op).tasks, t.defaultsApplied := by
  cases op with
  | addTask inputValue priority category date now created updated =>
    simp only [step, addTask]
    split
    · intro t ht
      simp only [saveTasksToLocalStorage, List.mem_append, List.mem_singleton] at ht
      rcases ht with ht | rfl
      · exact hs t ht
      · exact Task.new_defaultsApplied _ _ _ _ _ _ _ _ _ _ (by simp)
    · exact hs
  | editTask id newText newPriority newCategory newDueDate newDescription now =>
    obtain ⟨hp, hc, hd⟩ := hop
    simp only [step, editTask]
    split
    · split
      · refine updateFirst_forall _ _ _ _ hs ?_
        intro t ht
        exact ⟨ht.1, hp, hc, orNull_defined _, hd, ht.2.2.2.2.2⟩
      · exact hs
    · exact hs
  | deleteTask elementFound id =>
    simp only [step, deleteTask]
    split
    · intro t ht
      exact hs t (List.mem_of_mem_filter ht)
    · exact hs
  | toggleTaskCompletion id now =>
    simp only [step, toggleTaskCompletion]
    split
    · refine updateFirst_forall _ _ _ _ hs ?_
      intro t ht
      exact ⟨by simp, ht.2.1, ht.2.2.1, ht.2.2.2.1, ht.2.2.2.2.1, ht.2.2.2.2.2⟩
    · exact hs
  | addSubtask taskId subtaskText now updated =>
    simp only [step, addSubtask]
    split
    · split
      · refine updateFirst_forall _ _ _ _ hs ?_
        intro t ht
        refine ⟨ht.1, ht.2.1, ht.2.2.1, ht.2.2.2.1, ht.2.2.2.2.1, ?_⟩
        intro sub hsub
        rcases List.mem_append.mp hsub with hsub | hsub
        · exact ht.2.2.2.2.2 sub hsub
        · rw [List.mem_singleton] at hsub
          subst hsub
          simp [Subtask.new, orDefault]
      · exact hs
    · exact hs
  | toggleSubtaskCompletion taskId subtaskId now =>
    simp only [step, toggleSubtaskCompletion]
    split
    · split
      · refine updateFirst_forall _ _ _ _ hs ?_
        intro t ht
        refine ⟨ht.1, ht.2.1, ht.2.2.1, ht.2.2.2.1, ht.2.2.2.2.1, ?_⟩
        exact updateFirst_forall (fun sub : Subtask => sub.completed ≠ .undefined) _ _ _
          ht.2.2.2.2.2 (fun _ _ => by simp)
      · exact hs
    · exact hs
  | deleteSubtask taskId subtaskId now =>
    simp only [step, deleteSubtask]
    split
    · refine updateFirst_forall _ _ _ _ hs ?_
      intro t ht
      refine ⟨ht.1, ht.2.1, ht.2.2.1, ht.2.2.2.1, ht.2.2.2.2.1, ?_⟩
      intro sub hsub
      exact ht.2.2.2.2.2 sub (List.mem_of_mem_filter hsub)
    · exact hs
  | clearAllTasks confirmed =>
    simp only [step, clearAllTasks]
    split
    · simp [saveTasksToLocalStorage]
    · exact hs
  | importTasks file =>
    cases file with
    | none => exact hs
    | some text =>
      simp only [step, importTasks]
      split
      · rename_i ts hts
        intro t ht
        cases text with
        | empty => simp [importedTasks] at hts
        | malformed => simp [importedTasks] at hts
        | nonArray => simp [importedTasks] at hts
        | array elems =>
          obtain ⟨e, _, he⟩ := mapExcept_mem (taskOfJson js) elems ts hts t ht
          exact taskOfJson_defaultsApplied js e t he
      · exact hs
  | setFilter filter => exact hs
  | searchInput value => exact hs

theorem run_defaultsApplied (js : Runtime) (ops : List Op) :
    ∀ s : TodoListManager, (∀ t ∈ s.tasks, t.defaultsApplied) →
      (∀ op ∈ ops, op.passesFieldValues) → ∀ t ∈ (run js s ops).tasks, t.defaultsApplied := by
  induction ops with
  | nil => intro s hs _; exact hs
  | cons op ops ih =>
    intro s hs h
    exact ih (step js s op)
      (step_defaultsApplied js s op hs (h op (List.mem_cons_self _ _)))
      (fun o ho => h o (List.mem_cons_of_mem _ ho))

/-- C8: for the collection that any sequence of calls builds from the empty store
(editTask being passed values for priority, category and description), loading what
saveTasksToLocalStorage wrote, in a manager that starts without tasks, succeeds and
yields as many tasks in the same order, each with the same id, text, completed flag,
priority, category, due date, description and list of subtasks. -/
theorem load_after_save_roundtrip (js : Runtime) (ops : List Op)
    (hops : ∀ op ∈ ops, op.passesFieldValues) :
    ∃ loaded,
      loadTasksFromLocalStorage js
        { TodoListManager.empty with
          storage := (saveTasksToLocalStorage js (run js TodoListManager.empty ops)).storage }
        = .ok loaded ∧
      loaded.tasks.length = (run js TodoListManager.empty ops).tasks.length ∧
      List.Forall₂ sameData (run js TodoListManager.empty ops).tasks loaded.tasks :=
  load_after_save js _
    (run_defaultsApplied js ops TodoListManager.empty (by simp [TodoListManager.empty]) hops)

/-- Witness for C8: the collection built by sampleOps is loaded back with the same
data. -/
theorem load_after_save_roundtrip_witness :
    (∀ op ∈ sampleOps, op.passesFieldValues) ∧
    ∃ loaded,
      loadTasksFromLocalStorage sampleRuntime
        { TodoListManager.empty with
          storage :=
            (saveTasksToLocalStorage sampleRuntime
              (run sampleRuntime TodoListManager.empty sampleOps)).storage }
        = .ok loaded ∧
      loaded.tasks.length = (run sampleRuntime TodoListManager.empty sampleOps).tasks.length ∧
      List.Forall₂ sameData (run sampleRuntime TodoListManager.empty sampleOps).tasks
        loaded.tasks :=
  ⟨by decide, load_after_save_roundtrip sampleRuntime sampleOps (by decide)⟩


/-! ## Idempotence of the search -/

/-- Filtering the result of a filter again with the same callback returns it as it
is: every element that was kept is kept again. -/
theorem filterExcept_idem {α : Type} (p : α → Except JsError Bool) (l : List α) :
    ∀ r, filterExcept p l = .ok r → filterExcept p r = .ok r := by
  induction l with
  | nil =>
    intro r h
    simp only [filterExcept, Except.ok.injEq] at h
    subst h
    rfl
  | cons a as ih =>
    intro r h
    cases hpa : p a with
    | error e => simp [filterExcept, hpa] at h
    | ok keep =>
      cases hrest : filterExcept p as with
      | error e => simp [filterExcept, hpa, hrest] at h
      | ok rest =>
        have hr := ih rest hrest
        simp only [filterExcept, hpa, hrest, Except.ok.injEq] at h
        subst h
        cases keep with
        | true => simp [filterExcept, hpa, hr]
        | false => simpa using hr

/-- A filter whose callback returns on every element of the list returns. -/
theorem filterExcept_total {α : Type} (p : α → Except JsError Bool) (l : List α)
    (h : ∀ a ∈ l, ∃ b, p a = .ok b) : ∃ r, filterExcept p l = .ok r := by
  induction l with
  | nil => exact ⟨[], rfl⟩
  | cons a as ih =>
    obtain ⟨b, hb⟩ := h a (List.mem_cons_self _ _)
    obtain ⟨rest, hrest⟩ := ih (fun x hx => h x (List.mem_cons_of_mem _ hx))
    exact ⟨if b then a :: rest else rest, by simp [filterExcept, hb, hrest]⟩

/-- On a task whose text, description and category are strings the callback of the
search returns, whatever the term. -/
theorem matchesSearch_total (js : Runtime) (term : String) (task : Task)
    (h : task.text.isString = true ∧ task.description.isString = true ∧
      task.category.isString = true) :
    ∃ b, matchesSearch js term task = .ok b := by
  obtain ⟨h1, h2, h3⟩ := h
  cases ht : task.text <;> simp [ht, JsValue.isString] at h1
  cases hd : task.description <;> simp [hd, JsValue.isString] at h2
  cases hc : task.category <;> simp [hc, JsValue.isString] at h3
  simp only [matchesSearch, lowerIncludes, ht, hd, hc]
  split
  · rename_i e he
    cases he
  · exact ⟨true, rfl⟩
  · split
    · rename_i e he
      cases he
    · exact ⟨true, rfl⟩
    · exact ⟨_, rfl⟩

/-- C11: searchTasks is idempotent.  Whenever a search of a task list with the stored
term returns a list, searching that list again with the same term returns the same
list; on tasks whose text, description and category are strings the search does
return, so both searches give the same list; and the same holds for every term that
the search box listener stores. -/
theorem searchTasks_idempotent (js : Runtime) (s : TodoListManager) (tasks : List Task) :
    (∀ found, searchTasks js s tasks = .ok found → searchTasks js s found = .ok found) ∧
    ((∀ t ∈ tasks, t.text.isString = true ∧ t.description.isString = true ∧
        t.category.isString = true) →
      ∃ found, searchTasks js s tasks = .ok found ∧ searchTasks js s found = .ok found) ∧
    (∀ term found, searchTasks js (searchInput js s term) tasks = .ok found →
      searchTasks js (searchInput js s term) found = .ok found) := by
  have hidem : ∀ s' : TodoListManager, ∀ found,
      searchTasks js s' tasks = .ok found → searchTasks js s' found = .ok found := by
    intro s' found h
    unfold searchTasks at h ⊢
    split
    · rfl
    · rename_i hterm
      rw [if_neg hterm] at h
      exact filterExcept_idem _ tasks found h
  refine ⟨hidem s, ?_, fun term found h => hidem _ found h⟩
  intro hstr
  have htotal : ∃ found, searchTasks js s tasks = .ok found := by
    unfold searchTasks
    split
    · exact ⟨tasks, rfl⟩
    · exact filterExcept_total _ tasks
        (fun t ht => matchesSearch_total js s.searchTerm t (hstr t ht))
  obtain ⟨found, hfound⟩ := htotal
  exact ⟨found, hfound, hidem s found hfound⟩

/-- Witness for C11: the term MILK on the tasks Buy milk and Walk the dog finds the
task Buy milk, and the second search of that result finds it again. -/
theorem searchTasks_idempotent_witness :
    searchTasks sampleRuntime (searchInput sampleRuntime TodoListManager.empty "MILK")
      [sampleTask 1 "Buy milk", sampleTask 2 "Walk the dog"] = .ok [sampleTask 1 "Buy milk"] ∧
    searchTasks sampleRuntime (searchInput sampleRuntime TodoListManager.empty "MILK")
      [sampleTask 1 "Buy milk"] = .ok [sampleTask 1 "Buy milk"] :=
  have hfirst : searchTasks sampleRuntime
      (searchInput sampleRuntime TodoListManager.empty "MILK")
      [sampleTask 1 "Buy milk", sampleTask 2 "Walk the dog"] = .ok [sampleTask 1 "Buy milk"] := by
    rfl
  ⟨hfirst,
   (searchTasks_idempotent sampleRuntime TodoListManager.empty
      [sampleTask 1 "Buy milk", sampleTask 2 "Walk the dog"]).2.2 "MILK" _ hfirst⟩

end TodoList
